import Mathlib

/-!
# Order persistence of the checkout service (`src/checkoutservice/database.go`)

A shallow embedding of the order store (`NewDatabaseService`, `createTables`,
`SaveOrder`, `GetOrders`) and of the record codec (`moneyToString`,
`prepareOrderForDB`).

The backing store is PostgreSQL, reached through `database/sql`.  Its state is
modelled as the content of the `orders` relation, and the three SQL statements
of the source are given the meaning their text has in PostgreSQL: the column
types and constraints of the `CREATE TABLE` statement (`VARCHAR(n)`,
`NOT NULL`, `PRIMARY KEY`), the row insertion, and the filtered, ordered
selection.  A text parameter that contains the character U+0000 is refused
by the store.  Every call that goes to the backing store takes a `fault`
argument: `some e` means that the call failed with `e` before the statement
was executed (lost connection, refused statement), `none` means that the
statement was executed.  `GetOrders` takes a second argument for a stream of
result rows that breaks before its end.  Timestamps are instants at the
resolution of the store.
-/

namespace Checkout

/-! ## Data model -/

/-- Instants, as the store represents them: the values that a `TIMESTAMP`
column can hold, at its resolution. -/
abbrev Time := Int

/-- Errors that a call to the backing store can return. -/
inductive DBError where
  /-- The call `sql.Open` could not build a connection from the URL. -/
  | badURL
  /-- The backing store cannot be reached. -/
  | unavailable
  /-- The statement was refused (for instance missing privileges). -/
  | refused
  /-- SQLSTATE 42P01: the relation `orders` does not exist. -/
  | undefinedTable
  /-- SQLSTATE 23505: the primary key `id` is already present. -/
  | duplicateKey
  /-- SQLSTATE 22001: value too long for type character varying(n). -/
  | valueTooLong
  /-- SQLSTATE 22021: a text parameter contains the character U+0000. -/
  | invalidText
  /-- SQLSTATE 23502: null value in a `NOT NULL` column. -/
  | notNull
  /-- The call `rows.Scan` met a NULL that the destination field cannot hold. -/
  | scanNull
deriving DecidableEq, Repr

deriving instance DecidableEq for Except

/-- The Go struct `OrderRecord`. -/
structure OrderRecord where
  ID : String
  UserID : String
  Email : String
  TotalCost : String
  Currency : String
  Items : String
  ShippingAddress : String
  CreatedAt : Time
deriving DecidableEq, Repr

/-- A row of the relation `orders`.  The seven text columns are `NOT NULL`
(`id` through `PRIMARY KEY`); `created_at` is declared without `NOT NULL`, so
it is the only column that can hold NULL (`none`). -/
structure Row where
  id : String
  user_id : String
  email : String
  total_cost : String
  currency : String
  items : String
  shipping_address : String
  created_at : Option Time
deriving DecidableEq, Repr

/-- State of the backing store: the rows of `orders` in insertion order, or
`none` while the relation does not exist. -/
structure DB where
  orders : Option (List Row)
deriving DecidableEq, Repr

/-- The Go struct `DatabaseService`: a handle on the backing store, opened from
a connection URL. -/
structure DatabaseService where
  db : String
deriving DecidableEq, Repr

/-- Modelled from the spec: the generated type `pb.Money` (genproto is not
part of the sources): an integer count of major units (`int64`), a count of
billionths (`int32`) and a currency code. -/
structure Money where
  CurrencyCode : String
  Units : Int
  Nanos : Int
  units_int64 : -2 ^ 63 ≤ Units ∧ Units < 2 ^ 63
  nanos_int32 : -2 ^ 31 ≤ Nanos ∧ Nanos < 2 ^ 31
deriving DecidableEq

/-- Modelled from the spec: the generated type `pb.OrderItem`, a line item with
product id, quantity and unit cost. -/
structure OrderItem where
  ProductId : String
  Quantity : Int
  Cost : Option Money
deriving DecidableEq

/-- Modelled from the spec: the generated type `pb.Address`. -/
structure Address where
  StreetAddress : String
  City : String
  State : String
  Country : String
  ZipCode : Int
deriving DecidableEq

/-- Modelled from the spec: the fields of the generated type
`pb.PlaceOrderRequest` that `prepareOrderForDB` reads. -/
structure PlaceOrderRequest where
  UserId : String
  Email : String
  Address : Option Address
deriving DecidableEq

/-- Error of `json.Marshal`. -/
structure EncodingError where
  msg : String
deriving DecidableEq, Repr

/-! ## The `orders` relation -/

/-- Whether a text contains the character U+0000, which no text value of the
store can hold: a text parameter with it is refused when the store reads the
parameters of a statement. -/
def hasNul (s : String) : Bool := s.data.any (fun c => c == Char.ofNat 0)

/-- Assignment of a text value, read before as a parameter of the statement, to
a `VARCHAR(n)` column: a value of at most `n` characters is stored as it is; a
longer one is an error, unless the characters in excess are all spaces, in
which case it is cut to `n` characters. -/
def varchar (n : Nat) (s : String) : Except DBError String :=
  if s.length ≤ n then .ok s
  else if (s.data.drop n).all (fun c => c == ' ') then .ok (String.mk (s.data.take n))
  else .error .valueTooLong

/-- The row that `INSERT INTO orders (id, user_id, email, total_cost, currency,
items, shipping_address, created_at) VALUES ($1, ..., $8)` builds from the
eight arguments of `SaveOrder`: each value is assigned to its column
(`VARCHAR(255)`, `VARCHAR(255)`, `VARCHAR(255)`, `VARCHAR(50)`, `VARCHAR(10)`,
`TEXT`, `TEXT`, `TIMESTAMP`).  The seven text parameters are read first, and
the statement is refused when one of them contains U+0000.  `created_at` is
given explicitly as `$8`, so its `DEFAULT CURRENT_TIMESTAMP` is not used. -/
def insertRow (order : OrderRecord) : Except DBError Row :=
  if hasNul order.ID || hasNul order.UserID || hasNul order.Email ||
      hasNul order.TotalCost || hasNul order.Currency || hasNul order.Items ||
      hasNul order.ShippingAddress then .error .invalidText
  else do
    let id ← varchar 255 order.ID
    let user_id ← varchar 255 order.UserID
    let email ← varchar 255 order.Email
    let total_cost ← varchar 50 order.TotalCost
    let currency ← varchar 10 order.Currency
    pure { id := id, user_id := user_id, email := email, total_cost := total_cost,
           currency := currency, items := order.Items,
           shipping_address := order.ShippingAddress,
           created_at := some order.CreatedAt }

/-- The order of `ORDER BY created_at DESC`: `a` may come before `b` when `a` is at least as
recent as `b`; NULL sorts before every instant in descending order. -/
def newerFirst (a b : Row) : Prop :=
  match a.created_at, b.created_at with
  | none, _ => True
  | some _, none => False
  | some x, some y => y ≤ x

instance newerFirstDecidable : DecidableRel newerFirst := fun a b => by
  unfold newerFirst
  cases a.created_at <;> cases b.created_at <;> infer_instance

/-- Go `rows.Scan` of one row into an `OrderRecord`: the text columns are copied,
and `created_at` is converted to `time.Time`, which fails on NULL. -/
def scanRow (r : Row) : Except DBError OrderRecord :=
  match r.created_at with
  | none => .error .scanNull
  | some t =>
    .ok { ID := r.id, UserID := r.user_id, Email := r.email, TotalCost := r.total_cost,
          Currency := r.currency, Items := r.items,
          ShippingAddress := r.shipping_address, CreatedAt := t }

/-- The `rows.Next()` loop of `GetOrders`: scan row after row and append; the
first scan error ends the loop and is returned without any record. -/
def scanAll : List Row → Except DBError (List OrderRecord)
  | [] => .ok []
  | r :: rest =>
    match scanRow r with
    | .error e => .error e
    | .ok o =>
      match scanAll rest with
      | .error e => .error e
      | .ok os => .ok (o :: os)

/-! ## Order store -/

/-- Go `createTables`: `CREATE TABLE IF NOT EXISTS orders (...)`.  Returns the
state of the store afterwards and the error of `ds.db.Exec`, if any. -/
def createTables (fault : Option DBError) (db : DB) : DB × Option DBError :=
  match fault with
  | some e => (db, some e)
  | none =>
    match db.orders with
    | some _ => (db, none)
    | none => ({ orders := some [] }, none)

/-- Go `SaveOrder`: one `INSERT` of the eight fields of `order`.  Returns the
state of the store afterwards and the error of `ds.db.Exec`, if any. -/
def SaveOrder (fault : Option DBError) (db : DB) (order : OrderRecord) : DB × Option DBError :=
  match fault with
  | some e => (db, some e)
  | none =>
    match db.orders with
    | none => (db, some .undefinedTable)
    | some rows =>
      match insertRow order with
      | .error e => (db, some e)
      | .ok row =>
        if rows.any (fun r => r.id == row.id) then (db, some .duplicateKey)
        else ({ orders := some (rows ++ [row]) }, none)

/-- Go `GetOrders`: `SELECT ... FROM orders WHERE user_id = $1 ORDER BY
created_at DESC`, then the scan loop.  The user id is a text parameter, refused
when it contains U+0000.  The order among rows of equal `created_at` is not
fixed by the statement; the model keeps insertion order for them.
`broken = some k` means that the stream of result rows breaks after `k` rows:
`rows.Next()` then returns false as it does after the last row, and since the
function never consults `rows.Err()`, the loop ends without error on the rows
read so far. -/
def GetOrders (fault : Option DBError) (broken : Option Nat) (db : DB) (userID : String) :
    Except DBError (List OrderRecord) :=
  match fault with
  | some e => .error e
  | none =>
    match db.orders with
    | none => .error .undefinedTable
    | some rows =>
      if hasNul userID then .error .invalidText
      else
        match broken with
        | none =>
          scanAll (List.insertionSort newerFirst (rows.filter (fun r => r.user_id == userID)))
        | some k =>
          scanAll ((List.insertionSort newerFirst
            (rows.filter (fun r => r.user_id == userID))).take k)

/-- The calls that `NewDatabaseService` can make, for the record of what it
attempted. -/
inductive Call where
  | sqlOpen
  | ping
  | createTables
deriving DecidableEq, Repr

/-- What the backing store answers to the three calls of `NewDatabaseService`:
the fault, if any, that each of them meets. -/
structure Startup where
  openFault : Option DBError
  pingFault : Option DBError
  execFault : Option DBError
deriving DecidableEq, Repr

/-- Go `NewDatabaseService`: `sql.Open`, then `db.Ping`, then `createTables`,
returning at the first error.  The result is the service or the error, the
state of the store afterwards and the calls made, in order. -/
def NewDatabaseService (env : Startup) (db : DB) (dbURL : String) :
    Except DBError DatabaseService × DB × List Call :=
  match env.openFault with
  | some e => (.error e, db, [.sqlOpen])
  | none =>
    match env.pingFault with
    | some e => (.error e, db, [.sqlOpen, .ping])
    | none =>
      match createTables env.execFault db with
      | (db', some e) => (.error e, db', [.sqlOpen, .ping, .createTables])
      | (db', none) => (.ok { db := dbURL }, db', [.sqlOpen, .ping, .createTables])

/-- Store states of a running service: the schema bootstrap on an empty
backing store, followed by any number of `createTables` and `SaveOrder` calls,
failed ones included. -/
inductive Reachable : DB → Prop where
  | init : Reachable (createTables none { orders := none }).1
  | create (fault : Option DBError) (db : DB) :
      Reachable db → Reachable (createTables fault db).1
  | save (fault : Option DBError) (db : DB) (order : OrderRecord) :
      Reachable db → Reachable (SaveOrder fault db order).1

/-! ## binary64 arithmetic

`moneyToString` computes in `float64`.  A finite `float64` value is a fraction
whose denominator is a power of two; the model keeps values as fractions
`num / den` and rounds the exact result of each operation to 53 significant
bits, ties to even.  The exponent range of `float64` is not modelled: the
values met here lie between `2^-30` and `2^64` in magnitude. -/

/-- A fraction `num / den`, `den` positive, not necessarily in lowest terms. -/
structure Frac where
  num : Int
  den : Nat
deriving DecidableEq, Repr

/-- Index of the leading bit of `n`, by halving at most `fuel` times. -/
def log2Fuel : Nat → Nat → Nat
  | 0, _ => 0
  | fuel + 1, n => if n ≤ 1 then 0 else log2Fuel fuel (n / 2) + 1

/-- Index of the leading bit of `n`: the floor of its binary logarithm. -/
def log2 (n : Nat) : Nat := log2Fuel n n

/-- The integer nearest to `n / d`, ties to the even one. -/
def divRoundEven (n d : Nat) : Nat :=
  let q := n / d
  let r := n % d
  if 2 * r < d then q
  else if d < 2 * r then q + 1
  else if q % 2 = 0 then q else q + 1

/-- Rounding of the positive fraction `n / d` to 53 significant bits, ties to
even: with `2^e ≤ n / d < 2^(e+1)`, the nearest multiple of `2^(e-52)`. -/
def roundPos (n d : Nat) : Frac :=
  let e0 : Int := (log2 n : Int) - (log2 d : Int)
  let e : Int := if d * 2 ^ e0.toNat ≤ n * 2 ^ (-e0).toNat then e0 else e0 - 1
  let s : Int := e - 52
  let m := divRoundEven (n * 2 ^ (-s).toNat) (d * 2 ^ s.toNat)
  { num := (m * 2 ^ s.toNat : Nat), den := 2 ^ (-s).toNat }

/-- Rounding of a fraction to the nearest `float64`. -/
def f64 (q : Frac) : Frac :=
  if q.num = 0 then { num := 0, den := 1 }
  else
    let r := roundPos q.num.natAbs q.den
    { num := q.num.sign * r.num, den := r.den }

/-- Go conversion `float64(n)` of an integer. -/
def f64ofInt (n : Int) : Frac := f64 { num := n, den := 1 }

/-- Go `x + y` on `float64`. -/
def f64add (x y : Frac) : Frac :=
  f64 { num := x.num * y.den + y.num * x.den, den := x.den * y.den }

/-- Go `x / y` on `float64`, for `y` not zero. -/
def f64div (x y : Frac) : Frac :=
  f64 { num := x.num * y.den * y.num.sign, den := x.den * y.num.natAbs }

/-- Go `fmt.Sprintf("%.2f", x)` for a finite `x`: the sign, then the exact
decimal expansion of `|x|` rounded to two fractional digits, ties to even. -/
def sprintf2f (x : Frac) : String :=
  let h := divRoundEven (x.num.natAbs * 100) x.den
  (if x.num < 0 then "-" else "") ++ Nat.repr (h / 100) ++ "." ++
    String.mk [Nat.digitChar (h % 100 / 10), Nat.digitChar (h % 10)]

/-! ## Record codec -/

/-- Go `moneyToString`. -/
def moneyToString (m : Option Money) : String :=
  match m with
  | none => "0.00"
  | some m =>
    sprintf2f (f64add (f64ofInt m.Units) (f64div (f64ofInt m.Nanos) (f64ofInt 1000000000)))

/-- The generated getter `GetCurrencyCode`, which accepts a nil receiver. -/
def GetCurrencyCode (m : Option Money) : String :=
  match m with
  | none => ""
  | some m => m.CurrencyCode

/-- The generated getter `GetAddress`, which accepts a nil receiver. -/
def GetAddress (req : Option PlaceOrderRequest) : Option Address :=
  match req with
  | none => none
  | some r => r.Address

/-- The generated getter `GetUserId`, which accepts a nil receiver. -/
def GetUserId (req : Option PlaceOrderRequest) : String :=
  match req with
  | none => ""
  | some r => r.UserId

/-- The generated getter `GetEmail`, which accepts a nil receiver. -/
def GetEmail (req : Option PlaceOrderRequest) : String :=
  match req with
  | none => ""
  | some r => r.Email

/-- Go `prepareOrderForDB`.  The two `json.Marshal` calls are the parameters
`marshalItems` and `marshalAddress`, and `now` is the value of `time.Now()`. -/
def prepareOrderForDB (marshalItems : List OrderItem → Except EncodingError String)
    (marshalAddress : Option Address → Except EncodingError String) (now : Time)
    (req : Option PlaceOrderRequest) (orderID : String) (totalCost : Option Money)
    (orderItems : List OrderItem) : Except EncodingError OrderRecord :=
  match marshalItems orderItems with
  | .error err => .error err
  | .ok itemsJSON =>
    match marshalAddress (GetAddress req) with
    | .error err => .error err
    | .ok addressJSON =>
      .ok { ID := orderID,
            UserID := GetUserId req,
            Email := GetEmail req,
            TotalCost := moneyToString totalCost,
            Currency := GetCurrencyCode totalCost,
            Items := itemsJSON,
            ShippingAddress := addressJSON,
            CreatedAt := now }

/-! ## Auxiliary definitions -/

/-- The value of a fraction. -/
def Frac.toRat (x : Frac) : ℚ := (x.num : ℚ) / (x.den : ℚ)

/-- The value that `moneyToString` formats: the `float64` sum of the units and
of the quotient of the nanos by `1000000000.0`. -/
def moneyFloat (units nanos : Int) : Frac :=
  f64add (f64ofInt units) (f64div (f64ofInt nanos) (f64ofInt 1000000000))

/-- Sample amount: 19 units and 990000000 nanos. -/
def money1999 : Money := ⟨"USD", 19, 990000000, by decide, by decide⟩
/-- Sample amount: no units and 125000000 nanos, one eighth. -/
def moneyEighth : Money := ⟨"USD", 0, 125000000, by decide, by decide⟩
/-- Sample amount: `2^53 + 1` units. -/
def moneyBig : Money := ⟨"USD", 9007199254740993, 0, by decide, by decide⟩

/-- The row that carries the fields of a record as they are. -/
def OrderRecord.toRow (o : OrderRecord) : Row :=
  { id := o.ID, user_id := o.UserID, email := o.Email, total_cost := o.TotalCost,
    currency := o.Currency, items := o.Items, shipping_address := o.ShippingAddress,
    created_at := some o.CreatedAt }

/-- The text fields of a record fit the widths of their columns. -/
def Fits (o : OrderRecord) : Prop :=
  o.ID.length ≤ 255 ∧ o.UserID.length ≤ 255 ∧ o.Email.length ≤ 255 ∧
    o.TotalCost.length ≤ 50 ∧ o.Currency.length ≤ 10

instance (o : OrderRecord) : Decidable (Fits o) := by unfold Fits; infer_instance

/-- The text does not contain the character U+0000. -/
def NoNul (s : String) : Prop := hasNul s = false

instance (s : String) : Decidable (NoNul s) := by unfold NoNul; infer_instance

/-- The characters of the text after the `n` first ones, if any, are all
spaces. -/
def Padded (n : Nat) (s : String) : Prop := (s.data.drop n).all (fun c => c == ' ') = true

instance (n : Nat) (s : String) : Decidable (Padded n s) := by unfold Padded; infer_instance

/-- No text field of the record contains the character U+0000. -/
def TextOK (o : OrderRecord) : Prop :=
  NoNul o.ID ∧ NoNul o.UserID ∧ NoNul o.Email ∧ NoNul o.TotalCost ∧ NoNul o.Currency ∧
    NoNul o.Items ∧ NoNul o.ShippingAddress

instance (o : OrderRecord) : Decidable (TextOK o) := by unfold TextOK; infer_instance

/-- Each `VARCHAR` field of the record fits the width of its column or exceeds
it by spaces only. -/
def WidthOK (o : OrderRecord) : Prop :=
  Padded 255 o.ID ∧ Padded 255 o.UserID ∧ Padded 255 o.Email ∧ Padded 50 o.TotalCost ∧
    Padded 10 o.Currency

instance (o : OrderRecord) : Decidable (WidthOK o) := by unfold WidthOK; infer_instance

/-- The store accepts the fields of the record: no U+0000, and no `VARCHAR`
field that exceeds its width by anything but spaces. -/
def Storable (o : OrderRecord) : Prop := TextOK o ∧ WidthOK o

instance (o : OrderRecord) : Decidable (Storable o) := by unfold Storable; infer_instance

/-- The natural `h` is the integer nearest to `x`, the even one of the two when
`x` is halfway between two integers. -/
def NearestEven (x : ℚ) (h : Nat) : Prop :=
  |(h : ℚ) - x| < 1 / 2 ∨ (|(h : ℚ) - x| = 1 / 2 ∧ h % 2 = 0)

/-- The first `n` characters of a text. -/
def cut (n : Nat) (s : String) : String := String.mk (s.data.take n)

/-- The row that carries the fields of a record, the `VARCHAR` ones cut to the
width of their column. -/
def OrderRecord.toStoredRow (o : OrderRecord) : Row :=
  { id := cut 255 o.ID, user_id := cut 255 o.UserID, email := cut 255 o.Email,
    total_cost := cut 50 o.TotalCost, currency := cut 10 o.Currency, items := o.Items,
    shipping_address := o.ShippingAddress, created_at := some o.CreatedAt }

/-- Equality of two records in every field but `CreatedAt`. -/
def sameFields (a b : OrderRecord) : Prop :=
  a.ID = b.ID ∧ a.UserID = b.UserID ∧ a.Email = b.Email ∧ a.TotalCost = b.TotalCost ∧
    a.Currency = b.Currency ∧ a.Items = b.Items ∧ a.ShippingAddress = b.ShippingAddress

instance (a b : OrderRecord) : Decidable (sameFields a b) := by unfold sameFields; infer_instance

/-- Invariant of the rows of a running store: no NULL `created_at`, no `id`
twice, every `id` within the width of its column, no U+0000 in a `user_id`. -/
def RowsInv (rows : List Row) : Prop :=
  (∀ r ∈ rows, r.created_at ≠ none) ∧ (rows.map (fun r => r.id)).Nodup ∧
    (∀ r ∈ rows, r.id.length ≤ 255) ∧ (∀ r ∈ rows, NoNul r.user_id)

instance newerFirstTotal : IsTotal Row newerFirst := ⟨fun a b => by
  unfold newerFirst
  cases a.created_at <;> cases b.created_at <;> simp
  exact le_total _ _⟩

instance newerFirstTrans : IsTrans Row newerFirst := ⟨fun a b c => by
  unfold newerFirst
  cases a.created_at <;> cases b.created_at <;> cases c.created_at <;> simp
  intro h1 h2
  exact le_trans h2 h1⟩

/-- Sample order, first of three of user `u`. -/
def order1 : OrderRecord := ⟨"a", "u", "u@example.com", "19.99", "USD", "[]", "null", 10⟩
/-- Sample order, second of three of user `u`, the most recent one. -/
def order2 : OrderRecord := ⟨"b", "u", "u@example.com", "5.00", "USD", "[]", "null", 30⟩
/-- Sample order, third of three of user `u`. -/
def order3 : OrderRecord := ⟨"c", "u", "u@example.com", "7.50", "USD", "[]", "null", 20⟩

/-- The store after the schema bootstrap. -/
def store0 : DB := (createTables none { orders := none }).1
/-- The store after `order1` was saved. -/
def store1 : DB := (SaveOrder none store0 order1).1
/-- The store after the three sample orders were saved. -/
def store3 : DB := (SaveOrder none (SaveOrder none store1 order2).1 order3).1

/-- A text of 256 characters `x`. -/
def longText : String := String.mk (List.replicate 256 'x')
/-- A text of 256 characters: `a` followed by 255 spaces. -/
def paddedText : String := String.mk ('a' :: List.replicate 255 ' ')
/-- A text of two characters: `u` followed by U+0000. -/
def nulText : String := String.mk ['u', Char.ofNat 0]

/-- Sample order whose `ID` is `a` followed by 255 spaces. -/
def paddedOrder : OrderRecord := { order1 with ID := paddedText }
/-- Sample order with the `ID` of `order1` and an `Email` of 256 characters. -/
def longEmailOrder : OrderRecord := { order1 with Email := longText }
/-- Sample order with the `ID` of `order1` and an `Email` of `a` and 255 spaces. -/
def paddedEmailOrder : OrderRecord := { order1 with Email := paddedText }
/-- Sample order with the `ID` of `order1` and U+0000 in its `Email`. -/
def nulEmailOrder : OrderRecord := { order1 with Email := nulText }
/-- Sample order with an empty `UserID`. -/
def noUserOrder : OrderRecord := { order1 with UserID := "" }
/-- Sample order, `order1` with another `CreatedAt`. -/
def order1Later : OrderRecord := { order1 with CreatedAt := 99 }

/-- Sample request of user `u`. -/
def request1 : Option PlaceOrderRequest := some ⟨"u", "u@example.com", none⟩
/-- Sample request whose user id contains U+0000. -/
def requestNul : Option PlaceOrderRequest := some ⟨nulText, "u@example.com", none⟩
/-- Sample request whose user id has 256 characters. -/
def requestLong : Option PlaceOrderRequest := some ⟨longText, "u@example.com", none⟩
/-- Sample encoder of line items. -/
def marshalItems1 (_ : List OrderItem) : Except EncodingError String := .ok "[]"
/-- Sample encoder of addresses. -/
def marshalAddress1 (_ : Option Address) : Except EncodingError String := .ok "null"

/-! ## Auxiliary facts: binary64 arithmetic -/

theorem log2Fuel_spec : ∀ (fuel n : Nat), n ≤ fuel → n ≠ 0 →
    2 ^ log2Fuel fuel n ≤ n ∧ n < 2 ^ (log2Fuel fuel n + 1)
  | 0, n, h, h0 => absurd (Nat.le_zero.1 h) h0
  | fuel + 1, n, h, h0 => by
    unfold log2Fuel
    split
    · have : n = 1 := by omega
      subst this
      simp
    · have h2 : n / 2 ≤ fuel := by omega
      have h3 : n / 2 ≠ 0 := by omega
      obtain ⟨ih1, ih2⟩ := log2Fuel_spec fuel (n / 2) h2 h3
      rw [pow_succ, pow_succ]
      rw [pow_succ] at ih2
      constructor <;> omega

theorem log2_spec {n : Nat} (h : n ≠ 0) : 2 ^ log2 n ≤ n ∧ n < 2 ^ (log2 n + 1) :=
  log2Fuel_spec n n (Nat.le_refl n) h

/-- The value `divRoundEven n d` is within one half of `n / d`. -/
theorem divRoundEven_near (n : Nat) {d : Nat} (hd : 0 < d) :
    2 * (divRoundEven n d * d) ≤ 2 * n + d ∧ 2 * n ≤ 2 * (divRoundEven n d * d) + d := by
  have hdm := Nat.div_add_mod n d
  have hr := Nat.mod_lt n hd
  unfold divRoundEven
  simp only
  generalize n / d = q at *
  generalize n % d = r at *
  have hqd : q * d = d * q := Nat.mul_comm _ _
  have hq1 : (q + 1) * d = d * q + d := by rw [Nat.add_mul, Nat.one_mul, hqd]
  split
  · rw [hqd]; omega
  · split
    · rw [hq1]; omega
    · split
      · rw [hqd]; omega
      · rw [hq1]; omega

theorem divRoundEven_abs (n : Nat) {d : Nat} (hd : 0 < d) :
    |(divRoundEven n d : ℚ) - (n : ℚ) / (d : ℚ)| ≤ 1 / 2 := by
  obtain ⟨h1, h2⟩ := divRoundEven_near n hd
  have hd' : (0 : ℚ) < d := by exact_mod_cast hd
  have h1' : (2 : ℚ) * (divRoundEven n d * d) ≤ 2 * n + d := by exact_mod_cast h1
  have h2' : (2 : ℚ) * n ≤ 2 * (divRoundEven n d * d) + d := by exact_mod_cast h2
  have hxd : (n : ℚ) / (d : ℚ) * d = n := div_mul_cancel₀ _ (ne_of_gt hd')
  generalize (n : ℚ) / (d : ℚ) = x at hxd
  rw [abs_le]
  constructor
  · by_contra hcon
    push_neg at hcon
    have := mul_pos (sub_pos.2 hcon) hd'
    nlinarith
  · by_contra hcon
    push_neg at hcon
    have := mul_pos (sub_pos.2 hcon) hd'
    nlinarith

/-- The only integer at less than one half of `n / d` is `divRoundEven n d`. -/
theorem divRoundEven_eq (n : Nat) {d : Nat} (hd : 0 < d) (k : Nat)
    (h : |(n : ℚ) / (d : ℚ) - (k : ℚ)| < 1 / 2) : divRoundEven n d = k := by
  have h1 := divRoundEven_abs n hd
  have h2 : |(divRoundEven n d : ℚ) - (k : ℚ)| < 1 := by
    have := abs_sub_le (divRoundEven n d : ℚ) ((n : ℚ) / (d : ℚ)) (k : ℚ)
    linarith
  rw [abs_lt] at h2
  have h3 : ((divRoundEven n d : ℤ) : ℚ) - ((k : ℤ) : ℚ) < 1 := by exact_mod_cast h2.2
  have h4 : (-1 : ℚ) < ((divRoundEven n d : ℤ) : ℚ) - ((k : ℤ) : ℚ) := by exact_mod_cast h2.1
  have h5 : (divRoundEven n d : ℤ) - (k : ℤ) < 1 := by exact_mod_cast h3
  have h6 : (-1 : ℤ) < (divRoundEven n d : ℤ) - (k : ℤ) := by exact_mod_cast h4
  omega

theorem two_zpow_split (s : Int) :
    (2 : ℚ) ^ s.toNat / (2 : ℚ) ^ (-s).toNat = (2 : ℚ) ^ s := by
  rcases le_total 0 s with h | h
  · obtain ⟨k, rfl⟩ := Int.eq_ofNat_of_zero_le h
    simp
  · obtain ⟨k, hk⟩ := Int.eq_ofNat_of_zero_le (neg_nonneg.2 h)
    have hs : s = -(k : Int) := by omega
    subst hs
    simp

/-- Rounding at the exponent `e`: when `2^e ≤ n / d`, the nearest multiple of
`2^(e-52)` is within `(n / d) / 2^53` of `n / d`. -/
theorem roundAt_abs (n : Nat) {d : Nat} (hd : 0 < d) (e : Int)
    (he : (2 : ℚ) ^ e ≤ (n : ℚ) / (d : ℚ)) :
    |((divRoundEven (n * 2 ^ (-(e - 52)).toNat) (d * 2 ^ (e - 52).toNat) *
        2 ^ (e - 52).toNat : Nat) : ℚ) / ((2 ^ (-(e - 52)).toNat : Nat) : ℚ) -
      (n : ℚ) / (d : ℚ)| ≤ (n : ℚ) / (d : ℚ) / 2 ^ 53 := by
  have hsplit := two_zpow_split (e - 52)
  generalize (e - 52).toNat = up at *
  generalize (-(e - 52)).toNat = dn at *
  have hP : (0 : ℚ) < 2 ^ up := by positivity
  have hD : (0 : ℚ) < 2 ^ dn := by positivity
  have hd' : (0 : ℚ) < d := by exact_mod_cast hd
  have hdiv := @divRoundEven_abs (n * 2 ^ dn) (d * 2 ^ up) (by positivity)
  push_cast at hdiv ⊢
  generalize (divRoundEven (n * 2 ^ dn) (d * 2 ^ up) : ℚ) = m at *
  have hfac : m * 2 ^ up / 2 ^ dn - (n : ℚ) / d =
      (2 ^ up / 2 ^ dn) * (m - (n : ℚ) * 2 ^ dn / (d * 2 ^ up)) := by
    field_simp
    ring
  rw [hfac, abs_mul, abs_of_pos (div_pos hP hD), hsplit]
  have hpow : (2 : ℚ) ^ (e - 52) = 2 ^ e / 2 ^ 52 := by
    rw [zpow_sub₀ (two_ne_zero)]
    norm_num
  have hpos : (0 : ℚ) < 2 ^ e := by positivity
  rw [hpow]
  calc (2 : ℚ) ^ e / 2 ^ 52 * |m - (n : ℚ) * 2 ^ dn / (d * 2 ^ up)|
      ≤ 2 ^ e / 2 ^ 52 * (1 / 2) := by
        apply mul_le_mul_of_nonneg_left hdiv
        positivity
    _ = 2 ^ e / 2 ^ 53 := by ring
    _ ≤ (n : ℚ) / d / 2 ^ 53 := by
        apply div_le_div_of_nonneg_right he
        positivity

/-- The exponent that `roundPos` chooses is not above the binary logarithm of
`n / d`. -/
theorem roundPos_exponent {n d : Nat} (hn : 0 < n) (hd : 0 < d) :
    (2 : ℚ) ^ (if d * 2 ^ ((log2 n : Int) - (log2 d : Int)).toNat ≤
          n * 2 ^ (-((log2 n : Int) - (log2 d : Int))).toNat
        then (log2 n : Int) - (log2 d : Int) else (log2 n : Int) - (log2 d : Int) - 1) ≤
      (n : ℚ) / (d : ℚ) := by
  have hd' : (0 : ℚ) < d := by exact_mod_cast hd
  split
  · rename_i hle
    have hsplit := two_zpow_split ((log2 n : Int) - (log2 d : Int))
    generalize ((log2 n : Int) - (log2 d : Int)).toNat = up at *
    generalize (-((log2 n : Int) - (log2 d : Int))).toNat = dn at *
    have hD : (0 : ℚ) < 2 ^ dn := by positivity
    have hle' : (d : ℚ) * 2 ^ up ≤ n * 2 ^ dn := by exact_mod_cast hle
    rw [← hsplit, div_le_div_iff₀ hD hd']
    linarith
  · have h1 := (log2_spec (Nat.ne_of_gt hn)).1
    have h2 := (log2_spec (Nat.ne_of_gt hd)).2
    have h1' : (2 : ℚ) ^ log2 n ≤ n := by exact_mod_cast h1
    have h2' : (d : ℚ) ≤ 2 ^ (log2 d + 1) := by exact_mod_cast le_of_lt h2
    have hpow : (2 : ℚ) ^ ((log2 n : Int) - (log2 d : Int) - 1) =
        2 ^ log2 n / 2 ^ (log2 d + 1) := by
      rw [show ((log2 n : Int) - (log2 d : Int) - 1) = (log2 n : Int) - ((log2 d + 1 : Nat) : Int)
        by push_cast; ring]
      rw [zpow_sub₀ (two_ne_zero), zpow_natCast, zpow_natCast]
    rw [hpow, div_le_div_iff₀ (by positivity) hd']
    have : (0 : ℚ) ≤ 2 ^ log2 n := by positivity
    nlinarith

theorem roundPos_spec {n d : Nat} (hn : 0 < n) (hd : 0 < d) :
    0 < (roundPos n d).den ∧ 0 ≤ (roundPos n d).num ∧
      |(roundPos n d).toRat - (n : ℚ) / (d : ℚ)| ≤ (n : ℚ) / (d : ℚ) / 2 ^ 53 := by
  refine ⟨?_, ?_, ?_⟩
  · simp only [roundPos]
    positivity
  · simp only [roundPos]
    exact Int.natCast_nonneg _
  · have h := roundAt_abs n hd _ (roundPos_exponent hn hd)
    simp only [roundPos, Frac.toRat, Int.cast_natCast]
    exact h

/-- Rounding to `float64` keeps the sign and moves a value by at most its
`2^-53`-th part. -/
theorem f64_spec (q : Frac) (hq : 0 < q.den) :
    0 < (f64 q).den ∧ (0 ≤ q.num → 0 ≤ (f64 q).num) ∧
      |(f64 q).toRat - q.toRat| ≤ |q.toRat| / 2 ^ 53 := by
  obtain ⟨num, den⟩ := q
  simp only at hq
  have hden : (0 : ℚ) < den := by exact_mod_cast hq
  unfold f64
  by_cases h0 : num = 0
  · subst h0
    simp [Frac.toRat]
  · simp only [h0, if_false]
    have hn : 0 < num.natAbs := Int.natAbs_pos.2 h0
    obtain ⟨h1, h2, h3⟩ := roundPos_spec hn hq
    refine ⟨h1, ?_, ?_⟩
    · intro hnn
      have : 0 < num := lt_of_le_of_ne hnn (Ne.symm h0)
      rw [Int.sign_eq_one_of_pos this, one_mul]
      exact h2
    · have hr : (0 : ℚ) < (roundPos num.natAbs den).den := by exact_mod_cast h1
      simp only [Frac.toRat] at h3 ⊢
      rcases lt_or_gt_of_ne h0 with hneg | hpos
      · have hcast : (num : ℚ) = -(num.natAbs : ℚ) := by
          have h : (num.natAbs : ℚ) = |(num : ℚ)| := by simp [Nat.cast_natAbs]
          rw [h, abs_of_neg (by exact_mod_cast hneg), neg_neg]
        rw [Int.sign_eq_neg_one_of_neg hneg, hcast]
        push_cast
        rw [show -1 * ((roundPos num.natAbs den).num : ℚ) / ((roundPos num.natAbs den).den : ℚ) -
            -(num.natAbs : ℚ) / (den : ℚ) =
            -(((roundPos num.natAbs den).num : ℚ) / ((roundPos num.natAbs den).den : ℚ) -
              (num.natAbs : ℚ) / (den : ℚ)) by ring]
        rw [abs_neg, neg_div, abs_neg, abs_of_nonneg (by positivity : (0 : ℚ) ≤ num.natAbs / den)]
        exact h3
      · have hcast : (num : ℚ) = (num.natAbs : ℚ) := by
          have h : (num.natAbs : ℚ) = |(num : ℚ)| := by simp [Nat.cast_natAbs]
          rw [h, abs_of_pos (by exact_mod_cast hpos)]
        rw [Int.sign_eq_one_of_pos hpos, hcast, one_mul,
          abs_of_nonneg (by positivity : (0 : ℚ) ≤ num.natAbs / den)]
        exact h3

theorem f64ofInt_spec (n : Int) :
    0 < (f64ofInt n).den ∧ (0 ≤ n → 0 ≤ (f64ofInt n).num) ∧
      |(f64ofInt n).toRat - (n : ℚ)| ≤ |(n : ℚ)| / 2 ^ 53 := by
  have h := f64_spec { num := n, den := 1 } Nat.one_pos
  simpa [f64ofInt, Frac.toRat] using h

theorem f64add_spec (x y : Frac) (hx : 0 < x.den) (hy : 0 < y.den) :
    0 < (f64add x y).den ∧ (0 ≤ x.num → 0 ≤ y.num → 0 ≤ (f64add x y).num) ∧
      |(f64add x y).toRat - (x.toRat + y.toRat)| ≤ |x.toRat + y.toRat| / 2 ^ 53 := by
  have hx' : (0 : ℚ) < x.den := by exact_mod_cast hx
  have hy' : (0 : ℚ) < y.den := by exact_mod_cast hy
  obtain ⟨h1, h2, h3⟩ := f64_spec { num := x.num * y.den + y.num * x.den, den := x.den * y.den }
    (Nat.mul_pos hx hy)
  have harg : (Frac.toRat { num := x.num * y.den + y.num * x.den, den := x.den * y.den }) =
      x.toRat + y.toRat := by
    simp only [Frac.toRat]
    push_cast
    field_simp
  rw [harg] at h3
  refine ⟨h1, fun hxn hyn => h2 ?_, h3⟩
  have := mul_nonneg hxn (Int.natCast_nonneg y.den)
  have := mul_nonneg hyn (Int.natCast_nonneg x.den)
  simp only
  omega

/-- The `float64` constant `1000000000.0` is the integer itself. -/
theorem f64ofInt_billion : f64ofInt 1000000000 = ⟨8388608000000000, 8388608⟩ := by
  set_option maxRecDepth 100000 in decide

/-- Division by the constant `1000000000.0`. -/
theorem f64div_billion_spec (x : Frac) (hx : 0 < x.den) :
    0 < (f64div x (f64ofInt 1000000000)).den ∧
      (0 ≤ x.num → 0 ≤ (f64div x (f64ofInt 1000000000)).num) ∧
      |(f64div x (f64ofInt 1000000000)).toRat - x.toRat / 10 ^ 9| ≤
        |x.toRat / 10 ^ 9| / 2 ^ 53 := by
  have hx' : (0 : ℚ) < x.den := by exact_mod_cast hx
  rw [f64ofInt_billion]
  obtain ⟨h1, h2, h3⟩ := f64_spec
    { num := x.num * (8388608 : Nat) * (8388608000000000 : Int).sign,
      den := x.den * (8388608000000000 : Int).natAbs } (Nat.mul_pos hx (by decide))
  have harg : Frac.toRat
      { num := x.num * (8388608 : Nat) * (8388608000000000 : Int).sign,
        den := x.den * (8388608000000000 : Int).natAbs } = x.toRat / 10 ^ 9 := by
    simp only [Frac.toRat]
    rw [show (8388608000000000 : Int).sign = 1 by decide,
      show (8388608000000000 : Int).natAbs = 8388608000000000 by decide]
    push_cast
    field_simp
    ring
  rw [harg] at h3
  refine ⟨h1, fun hxn => h2 ?_, h3⟩
  simp only
  rw [show (8388608000000000 : Int).sign = 1 by decide]
  have := mul_nonneg hxn (Int.natCast_nonneg 8388608)
  omega

/-- The `float64` sum is a fraction with positive denominator, not negative
when neither units nor nanos are, within `(|units| + |nanos| / 10^9) / 2^51`
of the exact value. -/
theorem moneyFloat_spec (U N : Int) :
    0 < (moneyFloat U N).den ∧ (0 ≤ U → 0 ≤ N → 0 ≤ (moneyFloat U N).num) ∧
      |(moneyFloat U N).toRat - ((U : ℚ) + (N : ℚ) / 10 ^ 9)| ≤
        (|(U : ℚ)| + |(N : ℚ)| / 10 ^ 9) / 2 ^ 51 := by
  obtain ⟨ha1, ha2, ha3⟩ := f64ofInt_spec U
  obtain ⟨hn1, hn2, hn3⟩ := f64ofInt_spec N
  obtain ⟨hb1, hb2, hb3⟩ := f64div_billion_spec (f64ofInt N) hn1
  obtain ⟨hs1, hs2, hs3⟩ := f64add_spec (f64ofInt U) (f64div (f64ofInt N) (f64ofInt 1000000000))
    ha1 hb1
  refine ⟨hs1, fun hU hN => hs2 (ha2 hU) (hb2 (hn2 hN)), ?_⟩
  unfold moneyFloat
  generalize (f64add (f64ofInt U) (f64div (f64ofInt N) (f64ofInt 1000000000))).toRat = s at *
  generalize (f64div (f64ofInt N) (f64ofInt 1000000000)).toRat = b at *
  generalize (f64ofInt U).toRat = a at *
  generalize (f64ofInt N).toRat = nf at *
  generalize (U : ℚ) = u at *
  generalize (N : ℚ) = n at *
  have h1 : |nf| ≤ |n| + |n| / 2 ^ 53 := by
    have := abs_sub_abs_le_abs_sub nf n
    linarith
  have h2 : |nf / 10 ^ 9| = |nf| / 10 ^ 9 := by
    rw [abs_div, abs_of_pos (by positivity : (0 : ℚ) < 10 ^ 9)]
  have h2' : |n / 10 ^ 9| = |n| / 10 ^ 9 := by
    rw [abs_div, abs_of_pos (by positivity : (0 : ℚ) < 10 ^ 9)]
  have h3 : |b - n / 10 ^ 9| ≤ |nf| / 10 ^ 9 / 2 ^ 53 + |n| / 2 ^ 53 / 10 ^ 9 := by
    have t1 := abs_sub_le b (nf / 10 ^ 9) (n / 10 ^ 9)
    have t2 : |nf / 10 ^ 9 - n / 10 ^ 9| = |nf - n| / 10 ^ 9 := by
      rw [← sub_div, abs_div, abs_of_pos (by positivity : (0 : ℚ) < 10 ^ 9)]
    have t3 : |nf - n| / 10 ^ 9 ≤ |n| / 2 ^ 53 / 10 ^ 9 :=
      div_le_div_of_nonneg_right hn3 (by positivity)
    rw [h2] at hb3
    linarith
  have h4 : |b| ≤ |n| / 10 ^ 9 + |b - n / 10 ^ 9| := by
    have := abs_sub_abs_le_abs_sub b (n / 10 ^ 9)
    rw [h2'] at this
    linarith
  have h5 : |a| ≤ |u| + |u| / 2 ^ 53 := by
    have := abs_sub_abs_le_abs_sub a u
    linarith
  have h6 := abs_add a b
  have h7 := abs_sub_le s (a + b) (u + n / 10 ^ 9)
  have h8 : |a + b - (u + n / 10 ^ 9)| ≤ |a - u| + |b - n / 10 ^ 9| := by
    have := abs_add (a - u) (b - n / 10 ^ 9)
    rwa [show a - u + (b - n / 10 ^ 9) = a + b - (u + n / 10 ^ 9) by ring] at this
  have hu := abs_nonneg u
  have hn := abs_nonneg n
  have t4 : |a + b| / 2 ^ 53 ≤ (|a| + |b|) / 2 ^ 53 :=
    div_le_div_of_nonneg_right h6 (by positivity)
  have t5 : |nf| / 10 ^ 9 / 2 ^ 53 ≤ (|n| + |n| / 2 ^ 53) / 10 ^ 9 / 2 ^ 53 :=
    div_le_div_of_nonneg_right (div_le_div_of_nonneg_right h1 (by positivity)) (by positivity)
  generalize |u| = x at *
  generalize |n| = y at *
  generalize |a| = aa at *
  generalize |b| = bb at *
  generalize |nf| = nn at *
  generalize |a + b| = ab at *
  generalize |b - n / 10 ^ 9| = eb at *
  generalize |a - u| = ea at *
  generalize |s - (a + b)| = es at *
  generalize |a + b - (u + n / 10 ^ 9)| = eab at *
  generalize |s - (u + n / 10 ^ 9)| = tot at *
  norm_num at *
  linarith

theorem Frac.abs_toRat (x : Frac) : |x.toRat| = (x.num.natAbs : ℚ) / (x.den : ℚ) := by
  unfold Frac.toRat
  rw [abs_div, Nat.abs_cast, Nat.cast_natAbs, Int.cast_abs]

/-- The hundredths that `sprintf2f` prints are within one half of a hundredth
of the value printed. -/
theorem sprintf2f_near (x : Frac) (hx : 0 < x.den) :
    |(divRoundEven (x.num.natAbs * 100) x.den : ℚ) - 100 * abs x.toRat| ≤ 1 / 2 := by
  have h := divRoundEven_abs (x.num.natAbs * 100) hx
  rw [x.abs_toRat]
  push_cast at h
  rwa [show (100 : ℚ) * ((x.num.natAbs : ℚ) / (x.den : ℚ)) =
    (x.num.natAbs : ℚ) * 100 / (x.den : ℚ) by ring]

/-- Accuracy of `moneyToString`: the text is a sign, the decimal digits of a
count `h` of hundredths with a point before the last two, and the amount it
denotes is within `1/200 + (|units| + |nanos| / 10^9) / 2^51` of the value. -/
theorem moneyToString_near (m : Money) :
    ∃ (neg : Bool) (h : Nat),
      moneyToString (some m) = (if neg then "-" else "") ++ Nat.repr (h / 100) ++ "." ++
        String.mk [Nat.digitChar (h % 100 / 10), Nat.digitChar (h % 10)] ∧
      |(if neg then -1 else 1) * ((h : ℚ) / 100) - ((m.Units : ℚ) + (m.Nanos : ℚ) / 10 ^ 9)| ≤
        1 / 200 + (|(m.Units : ℚ)| + |(m.Nanos : ℚ)| / 10 ^ 9) / 2 ^ 51 := by
  obtain ⟨hden, _, herr⟩ := moneyFloat_spec m.Units m.Nanos
  have hnear := sprintf2f_near (moneyFloat m.Units m.Nanos) hden
  refine ⟨decide ((moneyFloat m.Units m.Nanos).num < 0),
    divRoundEven ((moneyFloat m.Units m.Nanos).num.natAbs * 100) (moneyFloat m.Units m.Nanos).den,
    ?_, ?_⟩
  · simp only [moneyToString, sprintf2f, moneyFloat, decide_eq_true_eq]
  · have hden' : (0 : ℚ) < (moneyFloat m.Units m.Nanos).den := by exact_mod_cast hden
    generalize (divRoundEven ((moneyFloat m.Units m.Nanos).num.natAbs * 100)
      (moneyFloat m.Units m.Nanos).den : ℚ) = h at *
    generalize (|(m.Units : ℚ)| + |(m.Nanos : ℚ)| / 10 ^ 9) / 2 ^ 51 = E at *
    generalize (m.Units : ℚ) + (m.Nanos : ℚ) / 10 ^ 9 = v at *
    rw [abs_le] at herr
    by_cases hneg : (moneyFloat m.Units m.Nanos).num < 0
    · have hs : (moneyFloat m.Units m.Nanos).toRat < 0 := by
        unfold Frac.toRat
        exact div_neg_of_neg_of_pos (by exact_mod_cast hneg) hden'
      rw [abs_of_neg hs, abs_le] at hnear
      simp only [hneg, decide_True, if_true]
      rw [abs_le]
      constructor <;> linarith
    · have hs : 0 ≤ (moneyFloat m.Units m.Nanos).toRat := by
        unfold Frac.toRat
        exact div_nonneg (by exact_mod_cast not_lt.1 hneg) (le_of_lt hden')
      rw [abs_of_nonneg hs, abs_le] at hnear
      simp only [hneg, decide_False, if_false, Bool.false_eq_true]
      rw [abs_le]
      constructor <;> linarith

/-- Amounts in whole cents below `10^13` units are printed exactly. -/
theorem moneyToString_cents (m : Money) (c : Nat) (hU0 : 0 ≤ m.Units)
    (hU : m.Units < 10 ^ 13) (hc : c < 100) (hN : m.Nanos = (c : Int) * 10 ^ 7) :
    moneyToString (some m) = Nat.repr m.Units.toNat ++ "." ++
      String.mk [Nat.digitChar (c / 10), Nat.digitChar (c % 10)] := by
  have hN0 : 0 ≤ m.Nanos := by rw [hN]; positivity
  obtain ⟨hden, hnum, herr⟩ := moneyFloat_spec m.Units m.Nanos
  have hnum := hnum hU0 hN0
  have hden' : (0 : ℚ) < (moneyFloat m.Units m.Nanos).den := by exact_mod_cast hden
  have hk : ((m.Units.toNat : Int) : ℚ) = (m.Units : ℚ) := by rw [Int.toNat_of_nonneg hU0]
  have hh : divRoundEven ((moneyFloat m.Units m.Nanos).num.natAbs * 100)
      (moneyFloat m.Units m.Nanos).den = 100 * m.Units.toNat + c := by
    apply divRoundEven_eq _ hden
    have habs := (moneyFloat m.Units m.Nanos).abs_toRat
    have hs : 0 ≤ (moneyFloat m.Units m.Nanos).toRat := by
      unfold Frac.toRat
      exact div_nonneg (by exact_mod_cast hnum) (le_of_lt hden')
    rw [abs_of_nonneg hs] at habs
    push_cast
    rw [show ((moneyFloat m.Units m.Nanos).num.natAbs : ℚ) * 100 /
        ((moneyFloat m.Units m.Nanos).den : ℚ) =
        100 * ((moneyFloat m.Units m.Nanos).num.natAbs / ((moneyFloat m.Units m.Nanos).den : ℚ))
      by ring, ← habs]
    have hUq : (m.Units : ℚ) < 10 ^ 13 := by exact_mod_cast hU
    have hU0q : (0 : ℚ) ≤ m.Units := by exact_mod_cast hU0
    have hcq : (c : ℚ) < 100 := by exact_mod_cast hc
    have hc0 : (0 : ℚ) ≤ c := Nat.cast_nonneg c
    have hNq : (m.Nanos : ℚ) = (c : ℚ) * 10 ^ 7 := by rw [hN]; push_cast; ring
    rw [hNq, abs_of_nonneg hU0q, abs_of_nonneg (by positivity : (0 : ℚ) ≤ (c : ℚ) * 10 ^ 7),
      abs_le] at herr
    have hk' : (m.Units.toNat : ℚ) = (m.Units : ℚ) := by exact_mod_cast hk
    rw [hk', abs_lt]
    generalize (moneyFloat m.Units m.Nanos).toRat = s at *
    generalize (m.Units : ℚ) = u at *
    generalize (c : ℚ) = cq at *
    norm_num at herr ⊢
    constructor <;> linarith
  have hnot : ¬ (moneyFloat m.Units m.Nanos).num < 0 := not_lt.2 hnum
  have e1 : (100 * m.Units.toNat + c) / 100 = m.Units.toNat := by omega
  have e2 : (100 * m.Units.toNat + c) % 100 / 10 = c / 10 := by omega
  have e3 : (100 * m.Units.toNat + c) % 10 = c % 10 := by omega
  show sprintf2f (moneyFloat m.Units m.Nanos) = _
  simp only [sprintf2f, hh, hnot, if_false, e1, e2, e3]
  rfl

/-- The text of an amount has at most 24 characters. -/
theorem moneyToString_length (m : Option Money) : (moneyToString m).length ≤ 24 := by
  cases m with
  | none => decide
  | some m =>
    obtain ⟨neg, h, htext, hnear⟩ := moneyToString_near m
    have hlen : (Nat.repr (h / 100)).length ≤ 20 := by
      apply Nat.repr_length _ _ (by decide)
      have hU1 : (m.Units : ℚ) < 2 ^ 63 := by exact_mod_cast m.units_int64.2
      have hU2 : -(2 : ℚ) ^ 63 ≤ m.Units := by exact_mod_cast m.units_int64.1
      have hN1 : (m.Nanos : ℚ) < 2 ^ 31 := by exact_mod_cast m.nanos_int32.2
      have hN2 : -(2 : ℚ) ^ 31 ≤ m.Nanos := by exact_mod_cast m.nanos_int32.1
      have hUa : |(m.Units : ℚ)| ≤ 2 ^ 63 := abs_le.2 ⟨hU2, le_of_lt hU1⟩
      have hNa : |(m.Nanos : ℚ)| ≤ 2 ^ 31 := abs_le.2 ⟨hN2, le_of_lt hN1⟩
      have hh : (h : ℚ) < 10 ^ 22 := by
        rw [abs_le] at hnear
        generalize |(m.Units : ℚ)| = x at *
        generalize |(m.Nanos : ℚ)| = y at *
        generalize (h : ℚ) = hq at *
        generalize (m.Units : ℚ) = u at *
        generalize (m.Nanos : ℚ) = n at *
        cases neg
        · simp only [Bool.false_eq_true, if_false, one_mul] at hnear
          norm_num at *
          linarith [hnear.1, hnear.2]
        · simp only [if_true, neg_mul, one_mul] at hnear
          norm_num at *
          linarith [hnear.1, hnear.2]
      have hh' : h < 10 ^ 22 := by exact_mod_cast hh
      omega
    rw [htext]
    simp only [String.length_append]
    have h1 : (if neg = true then "-" else "").length ≤ 1 := by cases neg <;> decide
    have h2 : ".".length = 1 := by decide
    have h3 : (String.mk [Nat.digitChar (h % 100 / 10), Nat.digitChar (h % 10)]).length = 2 := rfl
    omega

set_option maxRecDepth 100000 in
theorem moneyToString_money1999 : moneyToString (some money1999) = "19.99" := by
  decide

theorem noNul_iff (s : String) : NoNul s ↔ ∀ c ∈ s.data, c ≠ Char.ofNat 0 := by
  unfold NoNul hasNul
  rw [List.any_eq_false]
  constructor
  · intro h c hc hcn
    exact h c hc (by simp [hcn])
  · intro h c hc hcn
    exact h c hc (by simpa using hcn)

theorem noNul_append {a b : String} (ha : NoNul a) (hb : NoNul b) : NoNul (a ++ b) := by
  rw [noNul_iff] at *
  intro c hc
  rw [String.data_append] at hc
  rcases List.mem_append.1 hc with h | h
  · exact ha c h
  · exact hb c h

theorem digitChar_ne_nul (k : Nat) (h : k < 10) : Nat.digitChar k ≠ Char.ofNat 0 := by
  interval_cases k <;> decide

theorem toDigitsCore_noNul : ∀ (fuel n : Nat) (ds : List Char),
    (∀ c ∈ ds, c ≠ Char.ofNat 0) → ∀ c ∈ Nat.toDigitsCore 10 fuel n ds, c ≠ Char.ofNat 0
  | 0, _, ds, h => by simpa [Nat.toDigitsCore] using h
  | fuel + 1, n, ds, h => by
    have hcons : ∀ c ∈ Nat.digitChar (n % 10) :: ds, c ≠ Char.ofNat 0 := by
      intro c hc
      rcases List.mem_cons.1 hc with hc | hc
      · rw [hc]; exact digitChar_ne_nul _ (Nat.mod_lt _ (by decide))
      · exact h c hc
    unfold Nat.toDigitsCore
    simp only
    split
    · exact hcons
    · exact toDigitsCore_noNul fuel (n / 10) _ hcons

/-- The decimal digits of a natural number do not contain U+0000. -/
theorem repr_noNul (n : Nat) : NoNul (Nat.repr n) := by
  rw [noNul_iff]
  exact toDigitsCore_noNul (n + 1) n [] (by intro c hc; cases hc)

/-- The value `divRoundEven n d` is the integer nearest to `n / d`, the even
one on a tie. -/
theorem divRoundEven_nearestEven (n : Nat) {d : Nat} (hd : 0 < d) :
    NearestEven ((n : ℚ) / (d : ℚ)) (divRoundEven n d) := by
  have hdm := Nat.div_add_mod n d
  have hr := Nat.mod_lt n hd
  have hd' : (0 : ℚ) < d := by exact_mod_cast hd
  have hx : (n : ℚ) / (d : ℚ) = ((n / d : Nat) : ℚ) + ((n % d : Nat) : ℚ) / (d : ℚ) := by
    have : (n : ℚ) = (d : ℚ) * ((n / d : Nat) : ℚ) + ((n % d : Nat) : ℚ) := by exact_mod_cast hdm.symm
    field_simp
    linarith
  unfold NearestEven divRoundEven
  simp only
  rw [hx]
  generalize n / d = q at *
  generalize n % d = r at *
  have hr0 : (0 : ℚ) ≤ (r : ℚ) / d := by positivity
  split
  · rename_i h1
    left
    have : (r : ℚ) / d < 1 / 2 := by
      rw [div_lt_iff₀ hd']
      have : (2 : ℚ) * r < d := by exact_mod_cast h1
      linarith
    rw [abs_lt]
    constructor <;> linarith
  · split
    · rename_i h1 h2
      left
      have h3 : (1 : ℚ) / 2 < (r : ℚ) / d := by
        rw [lt_div_iff₀ hd']
        have : (d : ℚ) < 2 * r := by exact_mod_cast h2
        linarith
      have h4 : (r : ℚ) / d < 1 := by
        rw [div_lt_one hd']
        exact_mod_cast hr
      push_cast
      rw [abs_lt]
      constructor <;> linarith
    · rename_i h1 h2
      have h3 : (r : ℚ) / d = 1 / 2 := by
        have : 2 * r = d := by omega
        have h' : (2 : ℚ) * r = d := by exact_mod_cast this
        field_simp
        linarith
      right
      split
      · rename_i h4
        refine ⟨?_, h4⟩
        rw [h3, show (q : ℚ) - (q + 1 / 2) = -(1 / 2) by ring, abs_neg]
        norm_num
      · rename_i h4
        refine ⟨?_, by omega⟩
        push_cast
        rw [h3, show (q : ℚ) + 1 - (q + 1 / 2) = 1 / 2 by ring]
        norm_num

/-- The text of an amount does not contain U+0000. -/
theorem moneyToString_noNul (m : Option Money) : NoNul (moneyToString m) := by
  cases m with
  | none => decide
  | some m =>
    obtain ⟨neg, h, htext, _⟩ := moneyToString_near m
    rw [htext]
    refine noNul_append (noNul_append (noNul_append ?_ (repr_noNul _)) (by decide)) ?_
    · cases neg <;> decide
    · rw [noNul_iff]
      intro c hc
      simp only [List.mem_cons, List.mem_nil_iff, or_false] at hc
      rcases hc with hc | hc <;> rw [hc] <;> exact digitChar_ne_nul _ (by omega)

/-- At most one natural is nearest to `x` with ties to even. -/
theorem NearestEven_unique {x : ℚ} {h k : Nat} (hh : NearestEven x h) (hk : NearestEven x k) :
    h = k := by
  unfold NearestEven at hh hk
  have key : ∀ a b : Nat, (a : ℚ) - b < 1 → (b : ℚ) - a < 1 → a = b := by
    intro a b h1 h2
    have h1' : ((a : Int) : ℚ) - ((b : Int) : ℚ) < ((1 : Int) : ℚ) := by exact_mod_cast h1
    have h2' : ((b : Int) : ℚ) - ((a : Int) : ℚ) < ((1 : Int) : ℚ) := by exact_mod_cast h2
    have h1'' : (a : Int) - (b : Int) < 1 := by exact_mod_cast h1'
    have h2'' : (b : Int) - (a : Int) < 1 := by exact_mod_cast h2'
    omega
  rcases hh with hh | ⟨hh, hhe⟩ <;> rcases hk with hk | ⟨hk, hke⟩
  · rw [abs_lt] at hh hk
    exact key h k (by linarith) (by linarith)
  · rw [abs_lt] at hh
    have := abs_le.1 (le_of_eq hk)
    exact key h k (by linarith) (by linarith)
  · rw [abs_lt] at hk
    have := abs_le.1 (le_of_eq hh)
    exact key h k (by linarith) (by linarith)
  · rcases abs_eq (by norm_num : (0 : ℚ) ≤ 1 / 2) |>.1 hh with h1 | h1 <;>
      rcases abs_eq (by norm_num : (0 : ℚ) ≤ 1 / 2) |>.1 hk with h2 | h2
    · exact key h k (by linarith) (by linarith)
    · have e : (h : ℚ) = k + 1 := by linarith
      have e' : h = k + 1 := by exact_mod_cast e
      omega
    · have e : (k : ℚ) = h + 1 := by linarith
      have e' : k = h + 1 := by exact_mod_cast e
      omega
    · exact key h k (by linarith) (by linarith)

theorem Frac.toRat_neg_iff (x : Frac) (hx : 0 < x.den) : x.toRat < 0 ↔ x.num < 0 := by
  have hx' : (0 : ℚ) < x.den := by exact_mod_cast hx
  unfold Frac.toRat
  rw [div_neg_iff]
  constructor
  · rintro (⟨_, h⟩ | ⟨h, _⟩)
    · linarith
    · exact_mod_cast h
  · intro h
    exact Or.inr ⟨by exact_mod_cast h, hx'⟩

/-- The text of an amount is that of its `float64` sum rounded to hundredths,
ties to even, with a minus sign when the sum is negative. -/
theorem moneyToString_rounds (m : Money) :
    ∃ h : Nat,
      moneyToString (some m) =
        (if (moneyFloat m.Units m.Nanos).toRat < 0 then "-" else "") ++ Nat.repr (h / 100) ++
          "." ++ String.mk [Nat.digitChar (h % 100 / 10), Nat.digitChar (h % 10)] ∧
      NearestEven (100 * |(moneyFloat m.Units m.Nanos).toRat|) h := by
  obtain ⟨hden, _, _⟩ := moneyFloat_spec m.Units m.Nanos
  refine ⟨divRoundEven ((moneyFloat m.Units m.Nanos).num.natAbs * 100)
    (moneyFloat m.Units m.Nanos).den, ?_, ?_⟩
  · show sprintf2f (moneyFloat m.Units m.Nanos) = _
    unfold sprintf2f
    by_cases hneg : (moneyFloat m.Units m.Nanos).num < 0
    · have := ((moneyFloat m.Units m.Nanos).toRat_neg_iff hden).2 hneg
      simp only [hneg, this, if_true]
    · have := mt ((moneyFloat m.Units m.Nanos).toRat_neg_iff hden).1 hneg
      simp only [hneg, this, if_false]
  · have h := divRoundEven_nearestEven ((moneyFloat m.Units m.Nanos).num.natAbs * 100) hden
    rw [(moneyFloat m.Units m.Nanos).abs_toRat]
    push_cast at h
    rwa [show (100 : ℚ) * (((moneyFloat m.Units m.Nanos).num.natAbs : ℚ) /
        ((moneyFloat m.Units m.Nanos).den : ℚ)) =
      ((moneyFloat m.Units m.Nanos).num.natAbs : ℚ) * 100 /
        ((moneyFloat m.Units m.Nanos).den : ℚ) by ring]

/-! ## Auxiliary facts: the order store -/

theorem cut_of_length_le {n : Nat} {s : String} (h : s.length ≤ n) : cut n s = s := by
  unfold cut
  rw [List.take_of_length_le (by simpa using h)]

theorem cut_length_le (n : Nat) (s : String) : (cut n s).length ≤ n := by
  show (s.data.take n).length ≤ n
  rw [List.length_take]
  exact Nat.min_le_left _ _

theorem padded_of_length_le {n : Nat} {s : String} (h : s.length ≤ n) : Padded n s := by
  unfold Padded
  rw [List.drop_of_length_le (by simpa using h)]
  rfl

theorem noNul_cut {n : Nat} {s : String} (h : NoNul s) : NoNul (cut n s) := by
  unfold NoNul hasNul at *
  rw [List.any_eq_false] at *
  intro c hc
  exact h c (List.mem_of_mem_take hc)

/-- The assignment to a `VARCHAR(n)` column succeeds exactly on the texts whose
characters after the `n` first ones are spaces, and stores the `n` first
characters. -/
theorem varchar_eq (n : Nat) (s : String) :
    varchar n s = if Padded n s then .ok (cut n s) else .error .valueTooLong := by
  unfold varchar
  by_cases hle : s.length ≤ n
  · simp [hle, padded_of_length_le hle, cut_of_length_le hle]
  · by_cases hp : Padded n s
    · have hp' := hp
      unfold Padded at hp'
      simp only [hle, if_false, hp, if_true, hp']
      rfl
    · have hp' : ((s.data.drop n).all fun c => c == ' ') = false := by
        unfold Padded at hp
        simpa using hp
      simp only [hle, if_false, hp, hp']
      rfl

/-- The row built by the insertion: refused for U+0000, then for a value too
long, and otherwise the record with its `VARCHAR` fields cut to their width. -/
theorem insertRow_eq (o : OrderRecord) :
    insertRow o = if TextOK o then
      (if WidthOK o then .ok o.toStoredRow else .error .valueTooLong)
      else .error .invalidText := by
  unfold insertRow
  by_cases ht : TextOK o
  · have ht' := ht
    obtain ⟨h1, h2, h3, h4, h5, h6, h7⟩ := ht'
    unfold NoNul at h1 h2 h3 h4 h5 h6 h7
    simp only [h1, h2, h3, h4, h5, h6, h7, Bool.or_self, Bool.false_eq_true, if_false, ht,
      if_true, varchar_eq]
    by_cases p1 : Padded 255 o.ID <;> by_cases p2 : Padded 255 o.UserID <;>
      by_cases p3 : Padded 255 o.Email <;> by_cases p4 : Padded 50 o.TotalCost <;>
      by_cases p5 : Padded 10 o.Currency <;>
      simp [WidthOK, p1, p2, p3, p4, p5, bind, Except.bind, pure, Except.pure,
        OrderRecord.toStoredRow]
  · have hc : (hasNul o.ID || hasNul o.UserID || hasNul o.Email || hasNul o.TotalCost ||
        hasNul o.Currency || hasNul o.Items || hasNul o.ShippingAddress) = true := by
      by_contra hcon
      apply ht
      simp only [Bool.or_eq_true, not_or, Bool.not_eq_true] at hcon
      obtain ⟨⟨⟨⟨⟨⟨h1, h2⟩, h3⟩, h4⟩, h5⟩, h6⟩, h7⟩ := hcon
      exact ⟨h1, h2, h3, h4, h5, h6, h7⟩
    simp only [hc, if_true, ht, if_false]

theorem toStoredRow_of_fits {o : OrderRecord} (h : Fits o) : o.toStoredRow = o.toRow := by
  obtain ⟨h1, h2, h3, h4, h5⟩ := h
  simp [OrderRecord.toStoredRow, OrderRecord.toRow, cut_of_length_le, h1, h2, h3, h4, h5]

theorem widthOK_of_fits {o : OrderRecord} (h : Fits o) : WidthOK o := by
  obtain ⟨h1, h2, h3, h4, h5⟩ := h
  exact ⟨padded_of_length_le h1, padded_of_length_le h2, padded_of_length_le h3,
    padded_of_length_le h4, padded_of_length_le h5⟩

/-- The two outcomes of `SaveOrder`: a failure that leaves the store as it was,
or the insertion of the row built from the record behind the existing rows. -/
theorem SaveOrder_cases (fault : Option DBError) (db : DB) (o : OrderRecord) :
    ((SaveOrder fault db o).1 = db ∧ (SaveOrder fault db o).2 ≠ none) ∨
    (∃ rows, fault = none ∧ db.orders = some rows ∧ Storable o ∧
      (∀ r ∈ rows, r.id ≠ o.toStoredRow.id) ∧
      SaveOrder fault db o = ({ orders := some (rows ++ [o.toStoredRow]) }, none)) := by
  obtain ⟨t⟩ := db
  cases fault with
  | some e => left; simp [SaveOrder]
  | none =>
    cases t with
    | none => left; simp [SaveOrder]
    | some rows =>
      by_cases ht : TextOK o
      · by_cases hw : WidthOK o
        · have hi : insertRow o = .ok o.toStoredRow := by rw [insertRow_eq, if_pos ht, if_pos hw]
          by_cases hany : rows.any (fun r => r.id == o.toStoredRow.id) = true
          · left; simp [SaveOrder, hi, hany]
          · right
            refine ⟨rows, rfl, rfl, ⟨ht, hw⟩, ?_, ?_⟩
            · intro r hr hid
              apply hany
              simp only [List.any_eq_true]
              exact ⟨r, hr, by simp [hid]⟩
            · simp [SaveOrder, hi, hany]
        · have hi : insertRow o = .error .valueTooLong := by
            rw [insertRow_eq, if_pos ht, if_neg hw]
          left; simp [SaveOrder, hi]
      · have hi : insertRow o = .error .invalidText := by rw [insertRow_eq, if_neg ht]
        left; simp [SaveOrder, hi]

/-- A storable record with a new `id` is inserted behind the existing rows. -/
theorem SaveOrder_ok {db : DB} {rows : List Row} {o : OrderRecord}
    (hrows : db.orders = some rows) (hs : Storable o)
    (hfresh : ∀ r ∈ rows, r.id ≠ o.toStoredRow.id) :
    SaveOrder none db o = ({ orders := some (rows ++ [o.toStoredRow]) }, none) := by
  obtain ⟨t⟩ := db
  simp only at hrows
  subst hrows
  have hi : insertRow o = .ok o.toStoredRow := by rw [insertRow_eq, if_pos hs.1, if_pos hs.2]
  have hany : (rows.any fun r => r.id == o.toStoredRow.id) = false := by
    rw [List.any_eq_false]
    intro r hr
    simpa using hfresh r hr
  simp [SaveOrder, hi, hany]

theorem newerFirst_toRow (a b : OrderRecord) :
    newerFirst a.toRow b.toRow ↔ b.CreatedAt ≤ a.CreatedAt := by
  simp [newerFirst, OrderRecord.toRow]

theorem scanRow_ok {r : Row} (h : r.created_at ≠ none) :
    ∃ o, scanRow r = .ok o ∧ o.toRow = r := by
  obtain ⟨a, b, c, d, e, f, g, t⟩ := r
  cases t with
  | none => exact absurd rfl h
  | some t => exact ⟨_, rfl, rfl⟩

/-- The scan loop succeeds on rows without NULL and returns them as records. -/
theorem scanAll_ok : ∀ {rows : List Row}, (∀ r ∈ rows, r.created_at ≠ none) →
    ∃ rs, scanAll rows = .ok rs ∧ rs.map OrderRecord.toRow = rows
  | [], _ => ⟨[], rfl, rfl⟩
  | r :: rest, h => by
    obtain ⟨o, ho, hor⟩ := scanRow_ok (h r (List.mem_cons_self _ _))
    obtain ⟨os, hos, hosr⟩ := scanAll_ok (fun x hx => h x (List.mem_cons_of_mem _ hx))
    exact ⟨o :: os, by simp [scanAll, ho, hos], by simp [hor, hosr]⟩

theorem RowsInv_nil : RowsInv [] := by simp [RowsInv]

theorem RowsInv_append {rows : List Row} {o : OrderRecord} (h : RowsInv rows)
    (hs : Storable o) (hfresh : ∀ r ∈ rows, r.id ≠ o.toStoredRow.id) :
    RowsInv (rows ++ [o.toStoredRow]) := by
  obtain ⟨h1, h2, h3, h4⟩ := h
  refine ⟨?_, ?_, ?_, ?_⟩
  · intro r hr
    rcases List.mem_append.1 hr with hr | hr
    · exact h1 r hr
    · rw [List.mem_singleton.1 hr]; simp [OrderRecord.toStoredRow]
  · rw [List.map_append, List.nodup_append]
    refine ⟨h2, by simp, ?_⟩
    intro a ha hb
    simp only [List.map_cons, List.map_nil, List.mem_singleton] at hb
    obtain ⟨r, hr, hra⟩ := List.mem_map.1 ha
    exact hfresh r hr (hra.trans hb)
  · intro r hr
    rcases List.mem_append.1 hr with hr | hr
    · exact h3 r hr
    · rw [List.mem_singleton.1 hr]; exact cut_length_le 255 o.ID
  · intro r hr
    rcases List.mem_append.1 hr with hr | hr
    · exact h4 r hr
    · rw [List.mem_singleton.1 hr]; exact noNul_cut hs.1.2.1

theorem createTables_orders (fault : Option DBError) (db : DB) (rows : List Row)
    (h : db.orders = some rows) : (createTables fault db).1 = db := by
  obtain ⟨t⟩ := db
  simp only at h
  subst h
  cases fault <;> rfl

/-- Every state of a running store has the relation, and its rows satisfy the
invariant. -/
theorem Reachable.inv {db : DB} (h : Reachable db) :
    ∃ rows, db.orders = some rows ∧ RowsInv rows := by
  induction h with
  | init => exact ⟨[], rfl, RowsInv_nil⟩
  | create fault db _ ih =>
    obtain ⟨rows, hrows, hinv⟩ := ih
    rw [createTables_orders fault db rows hrows]
    exact ⟨rows, hrows, hinv⟩
  | save fault db o _ ih =>
    obtain ⟨rows, hrows, hinv⟩ := ih
    rcases SaveOrder_cases fault db o with ⟨hsame, _⟩ | ⟨rows', _, hrows', hs, hfresh, heq⟩
    · rw [hsame]; exact ⟨rows, hrows, hinv⟩
    · rw [hrows] at hrows'
      cases hrows'
      rw [heq]
      exact ⟨_, rfl, RowsInv_append hinv hs hfresh⟩

/-- What `GetOrders` returns on rows without NULL when the stream of rows is
read to its end: the rows of the user, each once, most recent first. -/
theorem GetOrders_rows {db : DB} {rows : List Row} (hrows : db.orders = some rows)
    (hnull : ∀ r ∈ rows, r.created_at ≠ none) (userID : String) (hnul : NoNul userID) :
    ∃ rs, GetOrders none none db userID = .ok rs ∧
      (rs.map OrderRecord.toRow).Perm (rows.filter (fun r => r.user_id == userID)) ∧
      rs.Sorted (fun a b => b.CreatedAt ≤ a.CreatedAt) := by
  have hperm := List.perm_insertionSort newerFirst (rows.filter (fun r => r.user_id == userID))
  have hsorted := List.sorted_insertionSort newerFirst
    (rows.filter (fun r => r.user_id == userID))
  have hnn : ∀ r ∈ List.insertionSort newerFirst (rows.filter (fun r => r.user_id == userID)),
      r.created_at ≠ none := fun r hr =>
    hnull r (List.mem_of_mem_filter (hperm.mem_iff.1 hr))
  obtain ⟨rs, hrs, hmap⟩ := scanAll_ok hnn
  unfold NoNul at hnul
  refine ⟨rs, ?_, ?_, ?_⟩
  · simp [GetOrders, hrows, hrs, hnul]
  · rw [hmap]; exact hperm
  · rw [← hmap] at hsorted
    have := List.pairwise_map.1 hsorted
    exact this.imp (fun {a b} hab => (newerFirst_toRow a b).1 hab)

/-- A stream of result rows that breaks after the first row: `GetOrders` returns
that row alone, without error. -/
theorem GetOrders_broken_stream :
    GetOrders none (some 1) store3 "u" = .ok [order2] := by
  decide

theorem store0_reachable : Reachable store0 := Reachable.init

theorem store1_reachable : Reachable store1 := Reachable.save none store0 order1 store0_reachable

theorem store3_reachable : Reachable store3 :=
  Reachable.save none _ order3 (Reachable.save none store1 order2 store1_reachable)

/-- In a list without repeated `id`, exactly one row has the `id` of a member. -/
theorem countP_id_eq_one : ∀ {l : List Row} {a : Row}, (l.map (fun r => r.id)).Nodup → a ∈ l →
    l.countP (fun r => r.id == a.id) = 1
  | [], _, _, h => by cases h
  | x :: l, a, hnd, h => by
    rw [List.map_cons, List.nodup_cons] at hnd
    rcases List.mem_cons.1 h with hxa | hmem
    · subst hxa
      have hz : l.countP (fun r => r.id == a.id) = 0 := by
        rw [List.countP_eq_zero]
        intro r hr hra
        exact hnd.1 (List.mem_map.2 ⟨r, hr, by simpa using hra⟩)
      simp [List.countP_cons, hz]
    · have hne : ¬ (x.id == a.id) = true := by
        intro hxa
        have hxa' : x.id = a.id := by simpa using hxa
        exact hnd.1 (List.mem_map.2 ⟨a, hmem, hxa'.symm⟩)
      rw [List.countP_cons, if_neg hne, Nat.add_zero]
      exact countP_id_eq_one hnd.2 hmem

/-! ## Store construction and schema bootstrap -/

/-- C10: `NewDatabaseService` returns a service exactly when `sql.Open`,
`db.Ping` and `createTables` all succeed, in that order, and then the relation
exists; when one of them fails it returns the error of that step and no
service, and the calls made stop at the failing step. -/
theorem NewDatabaseService_ready_iff (env : Startup) (db : DB) (dbURL : String) :
    ((∃ ds, (NewDatabaseService env db dbURL).1 = .ok ds) ↔
      env.openFault = none ∧ env.pingFault = none ∧
        (createTables env.execFault db).2 = none) ∧
    (env.openFault = none → env.pingFault = none →
      (createTables env.execFault db).2 = none →
      NewDatabaseService env db dbURL =
        (.ok { db := dbURL }, (createTables none db).1, [.sqlOpen, .ping, .createTables]) ∧
      (createTables none db).1.orders ≠ none) ∧
    (∀ e, env.openFault = some e →
      NewDatabaseService env db dbURL = (.error e, db, [.sqlOpen])) ∧
    (∀ e, env.openFault = none → env.pingFault = some e →
      NewDatabaseService env db dbURL = (.error e, db, [.sqlOpen, .ping])) ∧
    (∀ e, env.openFault = none → env.pingFault = none →
      (createTables env.execFault db).2 = some e →
      NewDatabaseService env db dbURL = (.error e, db, [.sqlOpen, .ping, .createTables])) := by
  obtain ⟨o, p, x⟩ := env
  obtain ⟨t⟩ := db
  cases o <;> cases p <;> cases x <;> cases t <;>
    simp [NewDatabaseService, createTables]

/-- Witness of C10 on a store without relation: with no fault the service is
returned after the three calls; a failing probe stops construction before
`createTables`. -/
theorem NewDatabaseService_ready_iff_witness :
    NewDatabaseService ⟨none, none, none⟩ ⟨none⟩ "postgres://orders" =
      (.ok ⟨"postgres://orders"⟩, ⟨some []⟩, [.sqlOpen, .ping, .createTables]) ∧
    NewDatabaseService ⟨none, some .unavailable, none⟩ ⟨none⟩ "postgres://orders" =
      (.error .unavailable, ⟨none⟩, [.sqlOpen, .ping]) :=
  ⟨((NewDatabaseService_ready_iff ⟨none, none, none⟩ ⟨none⟩ "postgres://orders").2.1
      rfl rfl rfl).1,
   (NewDatabaseService_ready_iff ⟨none, some .unavailable, none⟩ ⟨none⟩
      "postgres://orders").2.2.2.1 .unavailable rfl rfl⟩

/-- C9: on a store in which `orders` already exists, `createTables` returns no
error and leaves the rows as they are, and a second call yields the state of
the first; a call that meets a fault changes nothing either. -/
theorem createTables_idempotent (db : DB) (rows : List Row) (h : db.orders = some rows) :
    createTables none db = (db, none) ∧
    (createTables none db).1.orders = some rows ∧
    createTables none (createTables none db).1 = createTables none db ∧
    (∀ fault, (createTables fault db).1 = db) := by
  obtain ⟨t⟩ := db
  simp only at h
  subst h
  refine ⟨rfl, rfl, rfl, ?_⟩
  intro fault
  cases fault <;> rfl

/-- Witness of C9 on a store that holds one order. -/
theorem createTables_idempotent_witness :
    createTables none ⟨some [⟨"a", "u", "e", "1.00", "USD", "[]", "null", some 1⟩]⟩ =
      (⟨some [⟨"a", "u", "e", "1.00", "USD", "[]", "null", some 1⟩]⟩, none) :=
  (createTables_idempotent ⟨some [⟨"a", "u", "e", "1.00", "USD", "[]", "null", some 1⟩]⟩
    [⟨"a", "u", "e", "1.00", "USD", "[]", "null", some 1⟩] rfl).1

/-! ## Record construction -/

/-- C8: `prepareOrderForDB` returns a record exactly when both encodings
succeed, and then it is the fully populated record; an error of the line items
is returned whatever the address does, an error of the address is returned when
the line items encode, and in both cases no record is returned. -/
theorem prepareOrderForDB_ok_iff
    (marshalItems : List OrderItem → Except EncodingError String)
    (marshalAddress : Option Address → Except EncodingError String) (now : Time)
    (req : Option PlaceOrderRequest) (orderID : String) (totalCost : Option Money)
    (orderItems : List OrderItem) :
    ((∃ r, prepareOrderForDB marshalItems marshalAddress now req orderID totalCost orderItems
          = .ok r) ↔
      (∃ i, marshalItems orderItems = .ok i) ∧
        (∃ a, marshalAddress (GetAddress req) = .ok a)) ∧
    (∀ i a, marshalItems orderItems = .ok i → marshalAddress (GetAddress req) = .ok a →
      prepareOrderForDB marshalItems marshalAddress now req orderID totalCost orderItems =
        .ok { ID := orderID, UserID := GetUserId req, Email := GetEmail req,
              TotalCost := moneyToString totalCost, Currency := GetCurrencyCode totalCost,
              Items := i, ShippingAddress := a, CreatedAt := now }) ∧
    (∀ e, marshalItems orderItems = .error e →
      prepareOrderForDB marshalItems marshalAddress now req orderID totalCost orderItems
        = .error e) ∧
    (∀ i e, marshalItems orderItems = .ok i → marshalAddress (GetAddress req) = .error e →
      prepareOrderForDB marshalItems marshalAddress now req orderID totalCost orderItems
        = .error e) := by
  unfold prepareOrderForDB
  cases hi : marshalItems orderItems <;> cases ha : marshalAddress (GetAddress req) <;> simp

/-- Witness of C8: when neither the line items nor the address can be encoded,
the error returned is that of the line items. -/
theorem prepareOrderForDB_ok_iff_witness :
    prepareOrderForDB (fun _ => .error ⟨"items"⟩) (fun _ => .error ⟨"address"⟩) 7
      (some ⟨"u", "e@x", none⟩) "id-1" none [] = .error ⟨"items"⟩ :=
  (prepareOrderForDB_ok_iff (fun _ => .error ⟨"items"⟩) (fun _ => .error ⟨"address"⟩) 7
    (some ⟨"u", "e@x", none⟩) "id-1" none []).2.2.1 ⟨"items"⟩ rfl

/-! ## Reading and writing orders -/

/-- C1 (amended): on every reachable store state and for every user id that
does not contain U+0000, `GetOrders` (when the query reaches the store and the
rows are read to the end) returns without error exactly the stored rows of
that user, each once, ordered by `created_at` descending; without such rows the
result is the empty list. -/
theorem GetOrders_spec (db : DB) (h : Reachable db) (userID : String) (hnul : NoNul userID) :
    ∃ rows rs, db.orders = some rows ∧ GetOrders none none db userID = .ok rs ∧
      (rs.map OrderRecord.toRow).Perm (rows.filter (fun r => r.user_id == userID)) ∧
      (rs.map (fun o => o.ID)).Nodup ∧
      rs.Sorted (fun a b => b.CreatedAt ≤ a.CreatedAt) ∧
      ((∀ r ∈ rows, r.user_id ≠ userID) → rs = []) := by
  obtain ⟨rows, hrows, hnull, hnodup, _⟩ := h.inv
  obtain ⟨rs, hget, hperm, hsorted⟩ := GetOrders_rows hrows hnull userID hnul
  refine ⟨rows, rs, hrows, hget, hperm, ?_, hsorted, ?_⟩
  · have h1 : (rs.map (fun o => o.ID)) = (rs.map OrderRecord.toRow).map (fun r => r.id) := by
      simp [OrderRecord.toRow, Function.comp_def]
    rw [h1]
    have h2 := (hperm.map (fun r => r.id)).nodup_iff
    rw [h2]
    exact (List.filter_sublist rows).map _ |>.nodup hnodup
  · intro hno
    have hnil : rows.filter (fun r => r.user_id == userID) = [] := by
      rw [List.filter_eq_nil_iff]
      intro r hr
      simpa using hno r hr
    rw [hnil] at hperm
    simpa using hperm.eq_nil

/-- Witness of C1 (amended): three orders of one user saved at the instants 10,
30 and 20 come back most recent first. -/
theorem GetOrders_spec_witness :
    GetOrders none none store3 "u" = .ok [order2, order3, order1] ∧
    ∃ rows rs, store3.orders = some rows ∧ GetOrders none none store3 "u" = .ok rs ∧
      (rs.map OrderRecord.toRow).Perm (rows.filter (fun r => r.user_id == "u")) ∧
      (rs.map (fun o => o.ID)).Nodup ∧
      rs.Sorted (fun a b => b.CreatedAt ≤ a.CreatedAt) ∧
      ((∀ r ∈ rows, r.user_id ≠ "u") → rs = []) :=
  ⟨by decide, GetOrders_spec store3 store3_reachable "u" (by decide)⟩

/-- C1, counterexample: for the user id made of `u` and U+0000, `GetOrders` on
the store that holds the three sample orders returns an error. -/
theorem GetOrders_spec_counterexample :
    nulText.data = ['u', Char.ofNat 0] ∧
    GetOrders none none store3 nulText = .error .invalidText := by
  decide

/-- C2 (amended): for checkout inputs whose encodings succeed, with a non-empty
order id not yet in the store, a non-empty user id and email, with order id,
user id and email of at most 255 characters and a currency code of at most 10,
and without U+0000 in the order id, the user id, the email, the currency code
and the two encoded texts, `prepareOrderForDB`, then `SaveOrder`, then
`GetOrders` for the user succeed, and the result holds exactly one record
equal to the built one in `ID`, `UserID`, `Email`, `TotalCost`, `Currency`,
`Items` and `ShippingAddress`. -/
theorem roundtrip (marshalItems : List OrderItem → Except EncodingError String)
    (marshalAddress : Option Address → Except EncodingError String) (now : Time)
    (req : Option PlaceOrderRequest) (orderID : String) (totalCost : Option Money)
    (orderItems : List OrderItem) (db : DB) (built : OrderRecord)
    (hdb : Reachable db)
    (hbuilt : prepareOrderForDB marshalItems marshalAddress now req orderID totalCost orderItems
      = .ok built)
    (hid : orderID ≠ "") (huser : GetUserId req ≠ "") (hemail : GetEmail req ≠ "")
    (hfresh : ∀ rows, db.orders = some rows → ∀ r ∈ rows, r.id ≠ orderID)
    (hwid : orderID.length ≤ 255) (hwuser : (GetUserId req).length ≤ 255)
    (hwemail : (GetEmail req).length ≤ 255)
    (hwcur : (GetCurrencyCode totalCost).length ≤ 10)
    (hnid : NoNul orderID) (hnuser : NoNul (GetUserId req)) (hnemail : NoNul (GetEmail req))
    (hncur : NoNul (GetCurrencyCode totalCost))
    (hnitems : NoNul built.Items) (hnaddr : NoNul built.ShippingAddress) :
    (SaveOrder none db built).2 = none ∧
    ∃ rs, GetOrders none none (SaveOrder none db built).1 (GetUserId req) = .ok rs ∧
      rs.countP (fun o => decide (sameFields o built)) = 1 := by
  have _ := hid
  have _ := huser
  have _ := hemail
  obtain ⟨rows, hrows, hinv⟩ := hdb.inv
  have hb : built.ID = orderID ∧ built.UserID = GetUserId req ∧ built.Email = GetEmail req ∧
      built.TotalCost = moneyToString totalCost ∧
      built.Currency = GetCurrencyCode totalCost := by
    unfold prepareOrderForDB at hbuilt
    cases hi : marshalItems orderItems <;> cases ha : marshalAddress (GetAddress req) <;>
      simp [hi, ha] at hbuilt
    rw [← hbuilt]
    exact ⟨rfl, rfl, rfl, rfl, rfl⟩
  obtain ⟨hID, hUser, hEmail, hCost, hCur⟩ := hb
  have hfits : Fits built := by
    refine ⟨?_, ?_, ?_, ?_, ?_⟩
    · rw [hID]; exact hwid
    · rw [hUser]; exact hwuser
    · rw [hEmail]; exact hwemail
    · rw [hCost]; exact le_trans (moneyToString_length totalCost) (by decide)
    · rw [hCur]; exact hwcur
  have htext : TextOK built := by
    refine ⟨?_, ?_, ?_, ?_, ?_, hnitems, hnaddr⟩
    · rw [hID]; exact hnid
    · rw [hUser]; exact hnuser
    · rw [hEmail]; exact hnemail
    · rw [hCost]; exact moneyToString_noNul totalCost
    · rw [hCur]; exact hncur
  have hstored := toStoredRow_of_fits hfits
  have hfresh' : ∀ r ∈ rows, r.id ≠ built.ID := by rw [hID]; exact hfresh rows hrows
  have hsave : SaveOrder none db built = ({ orders := some (rows ++ [built.toRow]) }, none) := by
    rw [← hstored]
    apply SaveOrder_ok hrows ⟨htext, widthOK_of_fits hfits⟩
    rw [hstored]
    exact hfresh'
  have hreach : Reachable (SaveOrder none db built).1 := Reachable.save none db built hdb
  obtain ⟨rows', hrows', hinv'⟩ := hreach.inv
  rw [hsave] at hrows' ⊢
  cases hrows'
  obtain ⟨rs, hget, hperm, _⟩ := @GetOrders_rows ⟨some (rows ++ [built.toRow])⟩ _ rfl
    hinv'.1 (GetUserId req) hnuser
  have hfilter : (rows ++ [built.toRow]).filter (fun r => r.user_id == GetUserId req) =
      rows.filter (fun r => r.user_id == GetUserId req) ++ [built.toRow] := by
    rw [List.filter_append]
    congr 1
    simp [OrderRecord.toRow, hUser]
  have hzero : ∀ p : Row → Bool, (∀ r, p r = true → r.id = built.ID) →
      (rows.filter (fun r => r.user_id == GetUserId req)).countP p = 0 := by
    intro p hp
    rw [List.countP_eq_zero]
    intro r hr hpr
    exact hfresh' r (List.mem_of_mem_filter hr) (hp r hpr)
  refine ⟨rfl, rs, hget, ?_⟩
  have h1 : rs.countP (fun o => decide (sameFields o built)) =
      (rs.map OrderRecord.toRow).countP (fun r => decide (r.id = built.ID ∧
        r.user_id = built.UserID ∧ r.email = built.Email ∧ r.total_cost = built.TotalCost ∧
        r.currency = built.Currency ∧ r.items = built.Items ∧
        r.shipping_address = built.ShippingAddress)) := by
    rw [List.countP_map]
    rfl
  rw [h1, hperm.countP_eq, hfilter, List.countP_append, hzero _ (by
    intro r hr
    simp only [decide_eq_true_eq] at hr
    exact hr.1)]
  simp [OrderRecord.toRow]

/-- Witness of C2 (amended): an order of 19.99 USD built for user `u` and saved
behind `order2` comes back once. -/
theorem roundtrip_witness :
    (SaveOrder none (SaveOrder none store0 order2).1
      ⟨"a", "u", "u@example.com", "19.99", "USD", "[]", "null", 10⟩).2 = none ∧
    ∃ rs, GetOrders none none (SaveOrder none (SaveOrder none store0 order2).1
        ⟨"a", "u", "u@example.com", "19.99", "USD", "[]", "null", 10⟩).1 (GetUserId request1)
        = .ok rs ∧
      rs.countP (fun o => decide (sameFields o
        ⟨"a", "u", "u@example.com", "19.99", "USD", "[]", "null", 10⟩)) = 1 :=
  roundtrip marshalItems1 marshalAddress1 10 request1 "a" (some money1999) []
    (SaveOrder none store0 order2).1 ⟨"a", "u", "u@example.com", "19.99", "USD", "[]", "null", 10⟩
    (Reachable.save none store0 order2 store0_reachable)
    (by
      rw [prepareOrderForDB]
      simp only [marshalItems1, marshalAddress1, moneyToString_money1999]
      rfl)
    (by decide) (by decide) (by decide)
    (by
      intro rows hrows r hr
      have h : rows = [order2.toRow] := by
        have : (SaveOrder none store0 order2).1.orders = some [order2.toRow] := by decide
        rw [this] at hrows
        exact (Option.some.inj hrows).symm
      subst h
      rw [List.mem_singleton.1 hr]
      decide)
    (by decide) (by decide) (by decide) (by decide)
    (by decide) (by decide) (by decide) (by decide) (by decide) (by decide)

set_option maxRecDepth 100000 in
/-- C2, counterexample: a request with a non-empty user id of 256 characters, a
non-empty order id not in the store, a non-empty email and encodable items and
address: the record is built, `SaveOrder` fails with the value too long, and
`GetOrders` for that user returns no record.  With the two characters `u` and
U+0000 as user id the record is built as well, and both `SaveOrder` and
`GetOrders` are refused. -/
theorem roundtrip_counterexample :
    prepareOrderForDB marshalItems1 marshalAddress1 10 requestLong "a" none [] =
      .ok ⟨"a", longText, "u@example.com", "0.00", "", "[]", "null", 10⟩ ∧
    store0.orders = some [] ∧ GetUserId requestLong ≠ "" ∧
    SaveOrder none store0 ⟨"a", longText, "u@example.com", "0.00", "", "[]", "null", 10⟩ =
      (store0, some .valueTooLong) ∧
    GetOrders none none store0 (GetUserId requestLong) = .ok [] ∧
    prepareOrderForDB marshalItems1 marshalAddress1 10 requestNul "a" none [] =
      .ok ⟨"a", nulText, "u@example.com", "0.00", "", "[]", "null", 10⟩ ∧
    GetUserId requestNul ≠ "" ∧ (GetUserId requestNul).length ≤ 255 ∧
    SaveOrder none store0 ⟨"a", nulText, "u@example.com", "0.00", "", "[]", "null", 10⟩ =
      (store0, some .invalidText) ∧
    GetOrders none none store0 (GetUserId requestNul) = .error .invalidText := by
  decide

/-- C3 (amended): when the store already holds a row with id `i`, `SaveOrder`
of a record with `ID` `i` fails and leaves the store as it was, so the row is
kept as it is and `GetOrders` for its user returns exactly one record with
that id (at most one for any user id without U+0000).  The error is that of
SQLSTATE 22021 when a text field of the record contains U+0000; otherwise it
is the value too long when a `VARCHAR` field exceeds its width by characters
other than spaces; in every other case, so whenever the fields fit, it is the
duplicate key. -/
theorem SaveOrder_duplicate (db : DB) (h : Reachable db) (rows : List Row)
    (hrows : db.orders = some rows) (old : Row) (hold : old ∈ rows) (order : OrderRecord)
    (hid : order.ID = old.id) :
    (∀ fault, (SaveOrder fault db order).1 = db ∧ (SaveOrder fault db order).2 ≠ none) ∧
    (¬ TextOK order → (SaveOrder none db order).2 = some .invalidText) ∧
    (TextOK order → ¬ WidthOK order → (SaveOrder none db order).2 = some .valueTooLong) ∧
    (TextOK order → WidthOK order → (SaveOrder none db order).2 = some .duplicateKey) ∧
    (∃ rs, GetOrders none none (SaveOrder none db order).1 old.user_id = .ok rs ∧
      rs.countP (fun o => o.ID == old.id) = 1) ∧
    (∀ userID, NoNul userID →
      ∃ rs, GetOrders none none (SaveOrder none db order).1 userID = .ok rs ∧
        rs.countP (fun o => o.ID == old.id) ≤ 1) := by
  obtain ⟨rows', hrows', hnull, hnodup, hlen, huserNul⟩ := h.inv
  rw [hrows] at hrows'
  cases hrows'
  have hcut : order.toStoredRow.id = old.id := by
    show cut 255 order.ID = old.id
    rw [hid]
    exact cut_of_length_le (hlen old hold)
  have hany : (rows.any fun r => r.id == order.toStoredRow.id) = true := by
    rw [List.any_eq_true]
    exact ⟨old, hold, by simp [hcut]⟩
  obtain ⟨t⟩ := db
  simp only at hrows
  subst hrows
  have h1 : ¬ TextOK order → SaveOrder none ⟨some rows⟩ order = (⟨some rows⟩, some .invalidText) := by
    intro ht
    simp [SaveOrder, insertRow_eq, ht]
  have h2 : TextOK order → ¬ WidthOK order →
      SaveOrder none ⟨some rows⟩ order = (⟨some rows⟩, some .valueTooLong) := by
    intro ht hw
    simp [SaveOrder, insertRow_eq, ht, hw]
  have h3 : TextOK order → WidthOK order →
      SaveOrder none ⟨some rows⟩ order = (⟨some rows⟩, some .duplicateKey) := by
    intro ht hw
    simp [SaveOrder, insertRow_eq, ht, hw, hany]
  have hsame : (SaveOrder none ⟨some rows⟩ order).1 = ⟨some rows⟩ ∧
      (SaveOrder none ⟨some rows⟩ order).2 ≠ none := by
    by_cases ht : TextOK order
    · by_cases hw : WidthOK order
      · rw [h3 ht hw]; simp
      · rw [h2 ht hw]; simp
    · rw [h1 ht]; simp
  have hcount : ∀ userID, NoNul userID →
      ∃ rs, GetOrders none none ⟨some rows⟩ userID = .ok rs ∧
        rs.countP (fun o => o.ID == old.id) =
          (rows.filter (fun r => r.user_id == userID)).countP (fun r => r.id == old.id) := by
    intro userID hu
    obtain ⟨rs, hget, hperm, _⟩ := @GetOrders_rows ⟨some rows⟩ _ rfl hnull userID hu
    refine ⟨rs, hget, ?_⟩
    have hm : rs.countP (fun o => o.ID == old.id) =
        (rs.map OrderRecord.toRow).countP (fun r => r.id == old.id) := by
      rw [List.countP_map]
      rfl
    rw [hm, hperm.countP_eq]
  refine ⟨?_, fun ht => by rw [h1 ht], fun ht hw => by rw [h2 ht hw],
    fun ht hw => by rw [h3 ht hw], ?_, ?_⟩
  · intro fault
    cases fault with
    | some e => simp [SaveOrder]
    | none => exact hsame
  · rw [hsame.1]
    obtain ⟨rs, hget, hc⟩ := hcount old.user_id (huserNul old hold)
    refine ⟨rs, hget, ?_⟩
    rw [hc]
    exact countP_id_eq_one ((List.filter_sublist rows).map _ |>.nodup hnodup)
      (List.mem_filter.2 ⟨hold, by simp⟩)
  · intro userID hu
    rw [hsame.1]
    obtain ⟨rs, hget, hc⟩ := hcount userID hu
    refine ⟨rs, hget, ?_⟩
    rw [hc]
    have hnd : ((rows.filter (fun r => r.user_id == userID)).map (fun r => r.id)).Nodup :=
      (List.filter_sublist rows).map _ |>.nodup hnodup
    by_cases hmem : ∃ r ∈ rows.filter (fun r => r.user_id == userID), r.id = old.id
    · obtain ⟨r, hr, hrid⟩ := hmem
      rw [← hrid]
      exact le_of_eq (countP_id_eq_one hnd hr)
    · have : (rows.filter (fun r => r.user_id == userID)).countP (fun r => r.id == old.id) = 0 := by
        rw [List.countP_eq_zero]
        intro r hr hrid
        exact hmem ⟨r, hr, by simpa using hrid⟩
      omega

set_option maxRecDepth 100000 in
/-- Witness of C3 (amended): saving `order1` a second time fails with the
duplicate key and leaves the store as it was, and so does saving it with an
`Email` of `a` and 255 spaces, which does not fit its column and is accepted. -/
theorem SaveOrder_duplicate_witness :
    (SaveOrder none store1 order1).2 = some .duplicateKey ∧
    (∀ fault, (SaveOrder fault store1 order1).1 = store1 ∧
      (SaveOrder fault store1 order1).2 ≠ none) ∧
    ¬ Fits paddedEmailOrder ∧ (SaveOrder none store1 paddedEmailOrder).2 = some .duplicateKey :=
  ⟨(SaveOrder_duplicate store1 store1_reachable [order1.toRow] rfl order1.toRow
      (List.mem_singleton.2 rfl) order1 rfl).2.2.2.1 (by decide) (by decide),
   (SaveOrder_duplicate store1 store1_reachable [order1.toRow] rfl order1.toRow
      (List.mem_singleton.2 rfl) order1 rfl).1,
   by decide,
   (SaveOrder_duplicate store1 store1_reachable [order1.toRow] rfl order1.toRow
      (List.mem_singleton.2 rfl) paddedEmailOrder rfl).2.2.2.1 (by decide) (by decide)⟩

set_option maxRecDepth 100000 in
/-- C3, counterexample: the store holds a row with id `a`; `SaveOrder` of a
record with `ID` `a` whose `Email` has 256 characters `x` fails with the value
too long, and one whose `Email` contains U+0000 fails with the error of
SQLSTATE 22021, neither with the duplicate key. -/
theorem SaveOrder_duplicate_counterexample :
    store1.orders = some [order1.toRow] ∧ longEmailOrder.ID = order1.toRow.id ∧
    (SaveOrder none store1 longEmailOrder).2 = some .valueTooLong ∧
    (SaveOrder none store1 longEmailOrder).2 ≠ some .duplicateKey ∧
    nulEmailOrder.ID = order1.toRow.id ∧
    (SaveOrder none store1 nulEmailOrder).2 = some .invalidText := by
  decide

/-- C4 (amended): `SaveOrder` makes no check for empty fields.  A record with an
empty required field is saved like any other: on a store that has the relation
and not yet its `id`, when its fields fit their columns and contain no U+0000,
the call succeeds and adds the row with the fields as given, empty ones
included. -/
theorem SaveOrder_empty_field (db : DB) (rows : List Row) (order : OrderRecord)
    (hempty : order.ID = "" ∨ order.UserID = "" ∨ order.Email = "" ∨ order.TotalCost = "" ∨
      order.Currency = "" ∨ order.Items = "" ∨ order.ShippingAddress = "")
    (hrows : db.orders = some rows) (hfits : Fits order) (htext : TextOK order)
    (hfresh : ∀ r ∈ rows, r.id ≠ order.ID) :
    SaveOrder none db order = ({ orders := some (rows ++ [order.toRow]) }, none) := by
  have _ := hempty
  have hstored := toStoredRow_of_fits hfits
  rw [← hstored]
  apply SaveOrder_ok hrows ⟨htext, widthOK_of_fits hfits⟩
  rw [hstored]
  exact hfresh

/-- Witness of C4 (amended): a record with an empty `UserID` is saved into the
bootstrapped store. -/
theorem SaveOrder_empty_field_witness :
    SaveOrder none store0 noUserOrder = ({ orders := some ([] ++ [noUserOrder.toRow]) }, none) :=
  SaveOrder_empty_field store0 [] noUserOrder (by decide) rfl (by decide) (by decide)
    (by intro r hr; cases hr)

/-- C4, counterexample: `SaveOrder` of a record whose `UserID` is the empty
string returns no error and inserts a row. -/
theorem SaveOrder_empty_field_counterexample :
    noUserOrder.UserID = "" ∧ (SaveOrder none store0 noUserOrder).2 = none ∧
    (SaveOrder none store0 noUserOrder).1.orders =
      some [⟨"a", "", "u@example.com", "19.99", "USD", "[]", "null", some 10⟩] := by
  decide

/-- C6 (amended): the `created_at` of the row that `SaveOrder` inserts is the
`CreatedAt` field of the record it is given, whatever the time of the store,
and `prepareOrderForDB` sets that field to the time at which it builds the
record. -/
theorem SaveOrder_created_at (fault : Option DBError) (db : DB) (order : OrderRecord)
    (hok : (SaveOrder fault db order).2 = none) :
    (∃ rows row, db.orders = some rows ∧
      (SaveOrder fault db order).1.orders = some (rows ++ [row]) ∧
      row.created_at = some order.CreatedAt) ∧
    (∀ (marshalItems : List OrderItem → Except EncodingError String)
      (marshalAddress : Option Address → Except EncodingError String) (now : Time)
      (req : Option PlaceOrderRequest) (orderID : String) (totalCost : Option Money)
      (orderItems : List OrderItem) (r : OrderRecord),
      prepareOrderForDB marshalItems marshalAddress now req orderID totalCost orderItems = .ok r →
      r.CreatedAt = now) := by
  constructor
  · rcases SaveOrder_cases fault db order with ⟨_, herr⟩ | ⟨rows, _, hrows, _, _, heq⟩
    · exact absurd hok herr
    · exact ⟨rows, order.toStoredRow, hrows, by rw [heq], rfl⟩
  · intro mi ma now req orderID totalCost orderItems r h
    unfold prepareOrderForDB at h
    cases hi : mi orderItems <;> cases ha : ma (GetAddress req) <;> simp [hi, ha] at h
    rw [← h]

/-- Witness of C6 (amended): `order1`, built at the instant 10, is stored with
`created_at` 10. -/
theorem SaveOrder_created_at_witness :
    (SaveOrder none store0 order1).2 = none ∧
    ∃ rows row, store0.orders = some rows ∧
      (SaveOrder none store0 order1).1.orders = some (rows ++ [row]) ∧
      row.created_at = some order1.CreatedAt :=
  ⟨by decide, (SaveOrder_created_at none store0 order1 (by decide)).1⟩

/-- C6, counterexample: two records that differ only in `CreatedAt`, saved into
the same store state, are stored with different `created_at`, each the value
that the caller put in the record. -/
theorem SaveOrder_created_at_counterexample :
    { order1 with CreatedAt := order1Later.CreatedAt } = order1Later ∧
    (SaveOrder none store0 order1).1.orders = some [{ order1.toRow with created_at := some 10 }] ∧
    (SaveOrder none store0 order1Later).1.orders =
      some [{ order1.toRow with created_at := some 99 }] ∧
    (SaveOrder none store0 order1).1.orders ≠ (SaveOrder none store0 order1Later).1.orders := by
  decide

/-- C7 (amended): `SaveOrder` succeeds exactly when the call reaches the store,
the relation exists, no text field of the record contains U+0000, each of `id`,
`user_id`, `email`, `total_cost` and `currency` fits the width of its column
or exceeds it by spaces only, and the `id` as stored is not yet present.  On
success the rows are the previous rows, unchanged and in place, followed by one
new row that carries `items`, `shipping_address` and `created_at` as given and
the `VARCHAR` fields cut to the width of their column, hence as given whenever
they fit.  On any failure the store is left as it was. -/
theorem SaveOrder_frame (fault : Option DBError) (db : DB) (order : OrderRecord) :
    ((SaveOrder fault db order).2 = none ↔
      fault = none ∧ Storable order ∧
        ∃ rows, db.orders = some rows ∧ ∀ r ∈ rows, r.id ≠ cut 255 order.ID) ∧
    ((SaveOrder fault db order).2 = none →
      ∃ rows, db.orders = some rows ∧
        (SaveOrder fault db order).1.orders = some (rows ++ [order.toStoredRow])) ∧
    ((SaveOrder fault db order).2 ≠ none → (SaveOrder fault db order).1 = db) ∧
    (Fits order → order.toStoredRow = order.toRow) := by
  refine ⟨⟨?_, ?_⟩, ?_, ?_, toStoredRow_of_fits⟩
  · intro hok
    rcases SaveOrder_cases fault db order with ⟨_, herr⟩ | ⟨rows, hf, hrows, hs, hfresh, _⟩
    · exact absurd hok herr
    · exact ⟨hf, hs, rows, hrows, hfresh⟩
  · rintro ⟨hf, hs, rows, hrows, hfresh⟩
    subst hf
    rw [SaveOrder_ok hrows hs hfresh]
  · intro hok
    rcases SaveOrder_cases fault db order with ⟨_, herr⟩ | ⟨rows, _, hrows, _, _, heq⟩
    · exact absurd hok herr
    · exact ⟨rows, hrows, by rw [heq]⟩
  · intro herr
    rcases SaveOrder_cases fault db order with ⟨hsame, _⟩ | ⟨rows, _, _, _, _, heq⟩
    · exact hsame
    · rw [heq] at herr
      exact absurd rfl herr

/-- Witness of C7 (amended): saving `order2` behind `order1` succeeds and adds
its row as given. -/
theorem SaveOrder_frame_witness :
    (SaveOrder none store1 order2).2 = none ∧
    (∃ rows, store1.orders = some rows ∧
      (SaveOrder none store1 order2).1.orders = some (rows ++ [order2.toStoredRow])) ∧
    order2.toStoredRow = order2.toRow :=
  ⟨by decide, (SaveOrder_frame none store1 order2).2.1 (by decide),
    (SaveOrder_frame none store1 order2).2.2.2 (by decide)⟩

set_option maxRecDepth 100000 in
/-- C7, counterexample: a record whose `ID` is `a` followed by 255 spaces is
saved without error, and the new row does not carry the `ID` of the record but
its first 255 characters. -/
theorem SaveOrder_frame_counterexample :
    (SaveOrder none store0 paddedOrder).2 = none ∧
    (SaveOrder none store0 paddedOrder).1.orders ≠ some ([] ++ [paddedOrder.toRow]) ∧
    (SaveOrder none store0 paddedOrder).1.orders = some [paddedOrder.toStoredRow] ∧
    paddedOrder.toStoredRow.id.length = 255 ∧ paddedOrder.ID.length = 256 := by
  decide

/-! ## Monetary formatting -/


/-- C5 (amended): a nil amount is printed as `0.00`.  For every amount the text
is that of the `float64` sum `s` of the units and of the nanos divided by
`1000000000.0`: a minus sign when `s` is negative, then the digits of the
hundredths nearest to `|s|`, ties to even (there is only one such count), with
a point before the last two digits.  The sum `s` is within
`(|units| + |nanos| / 10^9) / 2^51` of the value `units + nanos / 10^9`.  For an
amount in whole cents with `0 ≤ units < 10^13` the text is the value itself:
the units, a point and the two digits of the cents. -/
theorem moneyToString_spec :
    moneyToString none = "0.00" ∧
    (∀ m : Money, ∃ h : Nat,
      moneyToString (some m) =
        (if (moneyFloat m.Units m.Nanos).toRat < 0 then "-" else "") ++ Nat.repr (h / 100) ++
          "." ++ String.mk [Nat.digitChar (h % 100 / 10), Nat.digitChar (h % 10)] ∧
      NearestEven (100 * |(moneyFloat m.Units m.Nanos).toRat|) h ∧
      (∀ k : Nat, NearestEven (100 * |(moneyFloat m.Units m.Nanos).toRat|) k → k = h) ∧
      |(moneyFloat m.Units m.Nanos).toRat - ((m.Units : ℚ) + (m.Nanos : ℚ) / 10 ^ 9)| ≤
        (|(m.Units : ℚ)| + |(m.Nanos : ℚ)| / 10 ^ 9) / 2 ^ 51) ∧
    (∀ (m : Money) (c : Nat), 0 ≤ m.Units → m.Units < 10 ^ 13 → c < 100 →
      m.Nanos = (c : Int) * 10 ^ 7 →
      moneyToString (some m) = Nat.repr m.Units.toNat ++ "." ++
        String.mk [Nat.digitChar (c / 10), Nat.digitChar (c % 10)]) := by
  refine ⟨rfl, ?_, moneyToString_cents⟩
  intro m
  obtain ⟨h, htext, hround⟩ := moneyToString_rounds m
  exact ⟨h, htext, hround, fun k hk => NearestEven_unique hk hround,
    (moneyFloat_spec m.Units m.Nanos).2.2⟩

set_option maxRecDepth 100000 in
/-- Witness of C5 (amended): 19 units and 990000000 nanos are printed as
`19.99`, and one eighth, halfway between 0.12 and 0.13, as `0.12`. -/
theorem moneyToString_spec_witness :
    moneyToString (some money1999) = "19.99" ∧ moneyToString (some moneyEighth) = "0.12" :=
  ⟨(moneyToString_spec.2.2 money1999 99 (by decide) (by decide) (by decide) (by decide)).trans
    (by decide), by decide⟩

set_option maxRecDepth 100000 in
/-- C5, counterexample: the amount of `2^53 + 1` units and no nanos has the value
9007199254740993, and is printed as `9007199254740992.00`. -/
theorem moneyToString_spec_counterexample :
    moneyBig.Units = 9007199254740993 ∧ moneyBig.Nanos = 0 ∧
    moneyToString (some moneyBig) = "9007199254740992.00" ∧
    moneyToString (some moneyBig) ≠ "9007199254740993.00" := by
  decide

end Checkout
